import Mathlib

/-!
Shallow embedding of the address-normalization and postal-code resolution
core of the `fastapi_address2zip` repository (files `address_normalizer.py`
and `address_resolver.py`).  Strings are modelled as `List Char`; Python
regular-expression passes are modelled as explicit left-to-right scanners
with the same matching semantics (leftmost match, greedy/lazy runs over
character classes, `.` not matching a newline, `$` accepting a single final
newline).
-/

namespace A2Z

/-- Whitespace characters recognised by Python's `str.strip()` (the ones
relevant to this code base: ASCII whitespace, NEL, NBSP, ideographic space,
line/paragraph separators). -/
def isPySpace (c : Char) : Bool :=
  c = ' ' || c = '\t' || c = '\n' || c = '\r' || c = '\x0b' || c = '\x0c' ||
  c = '\x85' || c = '\xa0' || c = ' ' || c = ' ' || c = '　'

/-- Python `str.strip()`: drop leading and trailing whitespace. -/
def strip (l : List Char) : List Char :=
  ((l.dropWhile isPySpace).reverse.dropWhile isPySpace).reverse

/-- Python truthiness test used as `if not address or not address.strip()`:
the string is empty or consists of whitespace only. -/
def isBlank (l : List Char) : Bool := l.all isPySpace

/-- ASCII digit `[0-9]`. -/
def isAsciiDigit (c : Char) : Bool := '0' ≤ c && c ≤ '9'

/-- Full-width digit `[０-９]` (U+FF10..U+FF19). -/
def isFullDigit (c : Char) : Bool := '０' ≤ c && c ≤ '９'

/-- `\d` of a Python regex on the scripts this program handles:
ASCII or full-width decimal digit. -/
def isDecDigit (c : Char) : Bool := isAsciiDigit c || isFullDigit c

/-- The hyphen class `[-−]` used by the lot-number patterns. -/
def isHyphen (c : Char) : Bool := c = '-' || c = '−'

/-- Value of a basic kanji digit 一..九 (the `kanji_digits` dictionary). -/
def kanjiDigit? (c : Char) : Option Nat :=
  if c = '一' then some 1 else if c = '二' then some 2
  else if c = '三' then some 3 else if c = '四' then some 4
  else if c = '五' then some 5 else if c = '六' then some 6
  else if c = '七' then some 7 else if c = '八' then some 8
  else if c = '九' then some 9 else none

/-- Member of the regex class `[一二三四五六七八九十]`. -/
def isKanjiNumChar (c : Char) : Bool := (kanjiDigit? c).isSome || c = '十'

/-- The full-width→half-width translation table of `AddressNormalizer.__init__`
(digits and upper/lower Latin letters). -/
def fullToHalfPairs : List (Char × Char) :=
  ("０１２３４５６７８９ＡＢＣＤＥＦＧＨＩＪＫＬＭＮＯＰＱＲＳＴＵＶＷＸＹＺａｂｃｄｅｆｇｈｉｊｋｌｍｎｏｐｑｒｓｔｕｖｗｘｙｚ".toList.zip
   "0123456789ABCDEFGHIJKLMNOPQRSTUVWXYZabcdefghijklmnopqrstuvwxyz".toList)

/-- `str.translate` with the full-width→half-width table, per character. -/
def fullToHalfChar (c : Char) : Char :=
  match fullToHalfPairs.find? (fun p => p.1 = c) with
  | some p => p.2
  | none => c

/-- Translate full-width digits only (the inline
`str.maketrans('０１２３４５６７８９', '0123456789')` tables). -/
def fullDigitToHalf (c : Char) : Char :=
  if isFullDigit c then Char.ofNat (c.toNat - 0xFEE0) else c

/-- Decimal value of a digit character (ASCII or full-width), as consumed by
Python `int()` on decimal-digit strings. -/
def digitVal (c : Char) : Nat :=
  if isFullDigit c then c.toNat - 0xFF10 else c.toNat - 0x30

/-- Value of a run of decimal digits, as Python `int()`. -/
def digitsToNat (l : List Char) : Nat :=
  l.foldl (fun acc c => acc * 10 + digitVal c) 0

/-- Decimal digit string of a natural number (Python `str(n)`). -/
def natToDigits (n : Nat) : List Char := (toString n).toList

/-- Substring test, Python `pat in s` (for nonempty `pat`). -/
def containsSub (pat : List Char) : List Char → Bool
  | [] => pat.isEmpty
  | c :: rest => pat.isPrefixOf (c :: rest) || containsSub pat rest

/-- Can `.*$` consume `rest` in a non-MULTILINE Python regex?  `.` does not
match a newline and `$` matches at the end of the string or just before a
single final newline, so the tail may contain a newline only as its last
character. -/
def dotStarEndOk (rest : List Char) : Bool :=
  rest.dropLast.all (fun c => c ≠ '\n')

/-- What survives a `.*$` deletion of `rest`: the single final newline, when
present, is kept (it sits after the `$`). -/
def dotStarEndKeep (rest : List Char) : List Char :=
  if rest.getLast? = some '\n' then ['\n'] else []

theorem lengthDropWhileLe {α : Type} (p : α → Bool) (l : List α) :
    (l.dropWhile p).length ≤ l.length := by
  induction l with
  | nil => simp
  | cons c rest ih =>
    rw [List.dropWhile_cons]
    split
    · simp; omega
    · simp

/-- `AddressResolver._convert_kanji_to_number` (and the identical
`AddressNormalizer._convert_kanji_to_number_simple` modulo the final `str`):
value of a kanji numeral string, supported shapes only, capped at 48. -/
def convertKanjiToNumber : List Char → Option Nat
  | [c] =>
    if (kanjiDigit? c).isSome then kanjiDigit? c
    else if c = '十' then some 10 else none
  | [c1, c2] =>
    if c1 = '十' then (kanjiDigit? c2).map (10 + ·)
    else if c2 = '十' then
      match kanjiDigit? c1 with
      | some t => if t * 10 ≤ 48 then some (t * 10) else none
      | none => none
    else none
  | [c1, c2, c3] =>
    if c2 = '十' then
      match kanjiDigit? c1, kanjiDigit? c3 with
      | some t, some o => if t * 10 + o ≤ 48 then some (t * 10 + o) else none
      | _, _ => none
    else none
  | _ => none

/-- `AddressNormalizer._convert_kanji_to_number_simple`: same conversion,
returning the decimal digit string. -/
def convertKanjiToNumberSimple (l : List Char) : Option (List Char) :=
  (convertKanjiToNumber l).map natToDigits

/-- The `num_to_kanji` dictionary lookup: digit strings "1".."9" and "10". -/
def numToKanji? : List Char → Option Char
  | [c] =>
    if c = '1' then some '一' else if c = '2' then some '二'
    else if c = '3' then some '三' else if c = '4' then some '四'
    else if c = '5' then some '五' else if c = '6' then some '六'
    else if c = '7' then some '七' else if c = '8' then some '八'
    else if c = '9' then some '九' else none
  | ['1', '0'] => some '十'
  | _ => none

/-- One `re.sub(r'([一二三四五六七八九十]+)' + marker, replace, s)` pass of
`AddressNormalizer._convert_kanji_numbers`: each maximal kanji-numeral run
immediately followed by `marker` is replaced by its decimal digit string when
convertible, else kept verbatim.  Every scanner in this file recurses on a
strict suffix of its input, so it is driven by a structural fuel argument
initialised to the input length; the fuel-exhausted branch is unreachable. -/
def convertKanjiMarkerPassF (marker : List Char) : Nat → List Char → List Char
  | _, [] => []
  | 0, l => l
  | fuel + 1, c :: rest =>
    if isKanjiNumChar c then
      let run := c :: rest.takeWhile isKanjiNumChar
      let after := rest.dropWhile isKanjiNumChar
      if marker.isPrefixOf after then
        (match convertKanjiToNumber run with
         | some n => natToDigits n
         | none => run) ++ marker ++ convertKanjiMarkerPassF marker fuel (after.drop marker.length)
      else run ++ convertKanjiMarkerPassF marker fuel after
    else c :: convertKanjiMarkerPassF marker fuel rest

def convertKanjiMarkerPass (marker l : List Char) : List Char :=
  convertKanjiMarkerPassF marker l.length l

/-- `AddressNormalizer._convert_kanji_numbers`: the 丁目 pass, then the 条 pass. -/
def convertKanjiNumbers (address : List Char) : List Char :=
  convertKanjiMarkerPass ['条'] (convertKanjiMarkerPass ['丁', '目'] address)

/-- One `re.sub(r'([0-9]+)' + marker, replace, s)` pass of
`AddressNormalizer._convert_arabic_to_kanji`: each maximal half-width digit
run immediately followed by `marker` is replaced by the kanji numeral when
the digit string is a `num_to_kanji` key, else kept verbatim. -/
def arabicMarkerPassF (marker : List Char) : Nat → List Char → List Char
  | _, [] => []
  | 0, l => l
  | fuel + 1, c :: rest =>
    if isAsciiDigit c then
      let run := c :: rest.takeWhile isAsciiDigit
      let after := rest.dropWhile isAsciiDigit
      if marker.isPrefixOf after then
        (match numToKanji? run with
         | some k => [k]
         | none => run) ++ marker ++ arabicMarkerPassF marker fuel (after.drop marker.length)
      else run ++ arabicMarkerPassF marker fuel after
    else c :: arabicMarkerPassF marker fuel rest

def arabicMarkerPass (marker l : List Char) : List Char :=
  arabicMarkerPassF marker l.length l

/-- `AddressNormalizer._convert_arabic_to_kanji`: the 条 pass, then the 丁目 pass. -/
def convertArabicToKanji (district : List Char) : List Char :=
  arabicMarkerPass ['丁', '目'] (arabicMarkerPass ['条'] district)

/-- Python `str.replace(pat, rep)`: non-overlapping left-to-right replacement. -/
def replaceSubF (pat rep : List Char) : Nat → List Char → List Char
  | _, [] => []
  | 0, l => l
  | fuel + 1, c :: rest =>
    if pat.isPrefixOf (c :: rest) && !pat.isEmpty then
      rep ++ replaceSubF pat rep fuel (rest.drop (pat.length - 1))
    else c :: replaceSubF pat rep fuel rest

def replaceSub (pat rep l : List Char) : List Char :=
  replaceSubF pat rep l.length l

/-- `re.search(r'[0-9]+番地$', address)`: the string ends (a single final
newline allowed before `$`) with one or more half-width digits then 番地. -/
def endsWithDigitsBanchi (l : List Char) : Bool :=
  let core := if l.getLast? = some '\n' then l.dropLast else l
  match core.reverse with
  | a :: b :: c :: _ => a = '地' && b = '番' && isAsciiDigit c
  | _ => false

/-- `re.sub(r'[0-9]+[-−][0-9]+[-−]*[0-9]*.*$', '', s)` (and the variant
generator's `re.sub(r'[0-9]+[-−][0-9]+.*$', '', s)`, whose extra middle
quantifiers the trailing `.*` makes equivalent): delete from the leftmost
digit run followed by a hyphen and a digit whose tail `.*$` can consume. -/
def stripBanchiPatternF : Nat → List Char → List Char
  | _, [] => []
  | 0, l => l
  | fuel + 1, c :: rest =>
    if isAsciiDigit c then
      let run := c :: rest.takeWhile isAsciiDigit
      match rest.dropWhile isAsciiDigit with
      | h :: d :: r =>
        if isHyphen h && isAsciiDigit d then
          if dotStarEndOk r then dotStarEndKeep r
          else run ++ [h] ++ stripBanchiPatternF fuel (d :: r)
        else run ++ stripBanchiPatternF fuel (h :: d :: r)
      | other => run ++ stripBanchiPatternF fuel other
  else c :: stripBanchiPatternF fuel rest

def stripBanchiPattern (l : List Char) : List Char :=
  stripBanchiPatternF l.length l

/-- `re.sub(r'[0-9]+番[0-9]+号?.*$', '', s)`: delete from the leftmost digit
run followed by 番 and a digit whose tail `号?.*$` can consume. -/
def stripBanGoPatternF : Nat → List Char → List Char
  | _, [] => []
  | 0, l => l
  | fuel + 1, c :: rest =>
    if isAsciiDigit c then
      let run := c :: rest.takeWhile isAsciiDigit
      match rest.dropWhile isAsciiDigit with
      | b :: d :: r =>
        if b = '番' && isAsciiDigit d then
          if dotStarEndOk r then dotStarEndKeep r
          else run ++ [b] ++ stripBanGoPatternF fuel (d :: r)
        else run ++ stripBanGoPatternF fuel (b :: d :: r)
      | other => run ++ stripBanGoPatternF fuel other
  else c :: stripBanGoPatternF fuel rest

def stripBanGoPattern (l : List Char) : List Char :=
  stripBanGoPatternF l.length l

/-- `re.sub(r'([0-9]+丁目)[0-9]+[-−].*$', r'\1', s)`: keep the leftmost
`digits 丁目` group, delete the following digits, hyphen and tail. -/
def stripAfterChomePatternF : Nat → List Char → List Char
  | _, [] => []
  | 0, l => l
  | fuel + 1, c :: rest =>
    if isAsciiDigit c then
      let run := c :: rest.takeWhile isAsciiDigit
      let after := rest.dropWhile isAsciiDigit
      if ['丁', '目'].isPrefixOf after then
        let rest2 := after.drop 2
        let r2 := rest2.takeWhile isAsciiDigit
        let r3 := rest2.dropWhile isAsciiDigit
        match r2, r3 with
        | _ :: _, h :: r4 =>
          if isHyphen h && dotStarEndOk r4 then run ++ ['丁', '目'] ++ dotStarEndKeep r4
          else run ++ ['丁', '目'] ++ stripAfterChomePatternF fuel rest2
        | _, _ => run ++ ['丁', '目'] ++ stripAfterChomePatternF fuel rest2
      else run ++ stripAfterChomePatternF fuel after
    else c :: stripAfterChomePatternF fuel rest

def stripAfterChomePattern (l : List Char) : List Char :=
  stripAfterChomePatternF l.length l

/-- `re.sub(kw + '.*$', '', s)` for a literal building keyword: truncate at
the leftmost keyword occurrence whose tail `.*$` can consume. -/
def truncateKeywordPattern (kw : List Char) : List Char → List Char
  | [] => []
  | c :: rest =>
    if kw.isPrefixOf (c :: rest) && dotStarEndOk ((c :: rest).drop kw.length) then
      dotStarEndKeep ((c :: rest).drop kw.length)
    else c :: truncateKeywordPattern kw rest

/-- The ordered building/complex keyword list of
`AddressNormalizer._remove_building_info`. -/
def buildingKeywords : List (List Char) :=
  ["ヒルズ".toList, "タワー".toList, "ビル".toList, "マンション".toList,
   "アパート".toList, "ハイツ".toList, "コーポ".toList, "プラザ".toList,
   "センター".toList, "フィナンシャル".toList]

/-- `AddressNormalizer._remove_building_info`. -/
def removeBuildingInfo (address : List Char) : List Char :=
  if endsWithDigitsBanchi address then address
  else
    let a1 := stripBanchiPattern address
    let a2 := stripBanGoPattern a1
    let a3 := stripAfterChomePattern a2
    buildingKeywords.foldl (fun acc kw => truncateKeywordPattern kw acc) a3

/-- The body of `AddressNormalizer.normalize` after the blank-input check. -/
def normalizeCore (address : List Char) : List Char :=
  let a1 := strip address
  let a2 := a1.map fullToHalfChar
  let a3 := convertKanjiNumbers a2
  let a4 := removeBuildingInfo a3
  let a5 := replaceSub "大字".toList [] a4
  let a6 := replaceSub "字".toList [] a5
  let a7 := replaceSub "ケ".toList "ヶ".toList a6
  strip a7

/-- The error conditions surfaced by the core API. -/
inductive PyErr where
  | invalidInput
  | segmentation
deriving DecidableEq, Repr

/-- `AddressNormalizer.normalize`: `ValueError` on empty or whitespace-only
input, otherwise the normalized string. -/
def normalizeE (address : List Char) : Except PyErr (List Char) :=
  if isBlank address then .error .invalidInput else .ok (normalizeCore address)

/-- `re.match(r'(.*?' + marker class + ')', s)` for a one-character marker
class: the shortest prefix ending in a marker character; `.` does not cross a
newline, so the match fails if a newline precedes every marker. -/
def lazySplitAt (isM : Char → Bool) : List Char → Option (List Char × List Char)
  | [] => none
  | c :: rest =>
    if isM c then some ([c], rest)
    else if c = '\n' then none
    else (lazySplitAt isM rest).map (fun pr => (c :: pr.1, pr.2))

/-- City pattern 1, `re.match(r'(.*?市.*?区)', s)`: up to the first 市, then
up to the first following 区. -/
def cityPat1 (l : List Char) : Option (List Char) :=
  match lazySplitAt (fun c => c = '市') l with
  | some (p1, r1) =>
    match lazySplitAt (fun c => c = '区') r1 with
    | some (p2, _) => some (p1 ++ p2)
    | none => none
  | none => none

/-- City pattern 2, `re.match(r'(.*?郡.*?[町村])', s)`. -/
def cityPat2 (l : List Char) : Option (List Char) :=
  match lazySplitAt (fun c => c = '郡') l with
  | some (p1, r1) =>
    match lazySplitAt (fun c => c = '町' || c = '村') r1 with
    | some (p2, _) => some (p1 ++ p2)
    | none => none
  | none => none

/-- City pattern 3, `re.match(r'(.*市)', s)` (greedy): up to the last 市 on
the first line. -/
def cityPat3 (l : List Char) : Option (List Char) :=
  match (l.takeWhile (fun c => c ≠ '\n')).reverse.dropWhile (fun c => c ≠ '市') with
  | [] => none
  | l' => some l'.reverse

/-- City pattern 4, `re.match(r'(.*?区)', s)`. -/
def cityPat4 (l : List Char) : Option (List Char) :=
  (lazySplitAt (fun c => c = '区') l).map (·.1)

/-- City pattern 5, `re.match(r'(.*?[町村])', s)`. -/
def cityPat5 (l : List Char) : Option (List Char) :=
  (lazySplitAt (fun c => c = '町' || c = '村') l).map (·.1)

/-- City pattern 6, `re.match(r'(.*?郡)', s)`. -/
def cityPat6 (l : List Char) : Option (List Char) :=
  (lazySplitAt (fun c => c = '郡') l).map (·.1)

/-- The six city patterns of `AddressNormalizer.parse_address`, tried in
order; the first match wins. -/
def cityMatch (l : List Char) : Option (List Char) :=
  cityPat1 l <|> cityPat2 l <|> cityPat3 l <|> cityPat4 l <|> cityPat5 l <|> cityPat6 l

/-- The prefecture pattern `re.match(r'(.*?[都道府県])', address)`. -/
def prefMatch (address : List Char) : Option (List Char × List Char) :=
  lazySplitAt (fun c => c = '都' || c = '道' || c = '府' || c = '県') address

/-- `AddressNormalizer.parse_address`: split into prefecture, city and
district, `ValueError` when prefecture or city cannot be segmented. -/
def parseAddress (address : List Char) :
    Except PyErr (List Char × List Char × List Char) :=
  match prefMatch address with
  | none => .error .segmentation
  | some (prefecture, remaining) =>
    match cityMatch remaining with
    | none => .error .segmentation
    | some city => .ok (prefecture, city, remaining.drop city.length)

/-- `re.sub(r'[0-9]+丁目.*$', '', s)` of variant 3 and (with the
`[0-9０-９一二三四五六七八九十]` class) the base-district extraction of
`AddressResolver._exact_match`: delete from the leftmost maximal `cls` run
immediately followed by `marker` whose tail `.*$` can consume. -/
def stripRunMarkerTailF (cls : Char → Bool) (marker : List Char) : Nat → List Char → List Char
  | _, [] => []
  | 0, l => l
  | fuel + 1, c :: rest =>
    if cls c then
      let run := c :: rest.takeWhile cls
      let after := rest.dropWhile cls
      if marker.isPrefixOf after && dotStarEndOk (after.drop marker.length) then
        dotStarEndKeep (after.drop marker.length)
      else run ++ stripRunMarkerTailF cls marker fuel after
    else c :: stripRunMarkerTailF cls marker fuel rest

def stripRunMarkerTail (cls : Char → Bool) (marker l : List Char) : List Char :=
  stripRunMarkerTailF cls marker l.length l

/-- `re.search(r'^(.*?' + marker + ')', district)` for the base patterns of
`generate_district_variants`: the shortest prefix ending with the marker
substring. -/
def matchBasePattern (marker : List Char) : List Char → Option (List Char)
  | [] => none
  | c :: rest =>
    if marker.isPrefixOf (c :: rest) then some marker
    else if c = '\n' then none
    else (matchBasePattern marker rest).map (c :: ·)

/-- The base-pattern loop of `generate_district_variants` (step 5): the
markers 町, 新田町, 大字 tried in order; a match is kept (and the loop left)
only when it differs from the district and is not blank. -/
def baseVariantAux (district : List Char) : List (List Char) → List (List Char)
  | [] => []
  | m :: ms =>
    match matchBasePattern m district with
    | some b =>
      if b ≠ district && !isBlank b then [b] else baseVariantAux district ms
    | none => baseVariantAux district ms

/-- De-duplication loop of `generate_district_variants`: strip each variant,
keep it when non-empty and not seen before, preserving order. -/
def dedupStrip (variants : List (List Char)) : List (List Char) :=
  variants.foldl (fun acc v =>
    let v' := strip v
    if !v'.isEmpty && !acc.contains v' then acc ++ [v'] else acc) []

/-- `AddressNormalizer.generate_district_variants`. -/
def generateDistrictVariants (district : List Char) : List (List Char) :=
  let v1 := [district]
  let kanjiVersion := convertArabicToKanji district
  let v2 := if kanjiVersion ≠ district then v1 ++ [kanjiVersion] else v1
  let withoutChome := stripRunMarkerTail isAsciiDigit ['丁', '目'] district
  let v3 :=
    if withoutChome ≠ district && !isBlank withoutChome then
      let v3a := v2 ++ [withoutChome]
      let kanjiWithoutChome := convertArabicToKanji withoutChome
      if kanjiWithoutChome ≠ withoutChome then v3a ++ [kanjiWithoutChome] else v3a
    else v2
  let withoutBanchi := stripBanchiPattern district
  let v4 :=
    if withoutBanchi ≠ district && !isBlank withoutBanchi then v3 ++ [withoutBanchi] else v3
  let v5 := v4 ++ baseVariantAux district ["町".toList, "新田町".toList, "大字".toList]
  dedupStrip v5

/-! ## Resolver (`address_resolver.py`)

Python dictionaries preserve insertion order, so each level of the
hierarchical index is an ordered association list with unique keys; a fresh
key is appended at the end. -/

abbrev Str := List Char

/-- district name → postal code, insertion-ordered. -/
abbrev CityMap := List (Str × Str)

/-- city name → districts. -/
abbrev PrefMap := List (Str × CityMap)

/-- prefecture name → cities. -/
abbrev Index := List (Str × PrefMap)

/-- Ordered-dict lookup. -/
def alookup {V : Type} (m : List (Str × V)) (k : Str) : Option V :=
  (m.find? (fun e => e.1 == k)).map (·.2)

/-- Ordered-dict `in` test. -/
def amem {V : Type} (m : List (Str × V)) (k : Str) : Bool :=
  (alookup m k).isSome

/-- Ordered-dict update: replace in place when the key exists, append
otherwise (Python `dict` insertion semantics). -/
def upsert {V : Type} (m : List (Str × V)) (k : Str) (f : Option V → V) :
    List (Str × V) :=
  match m with
  | [] => [(k, f none)]
  | (k', v) :: rest => if k' == k then (k', f (some v)) :: rest else (k', v) :: upsert rest k f

/-- One row insertion of `AddressResolver._build_index`: create the
prefecture and city levels when missing and keep the first-seen postal code
for the district. -/
def insertTriple (idx : Index) (p c d z : Str) : Index :=
  upsert idx p (fun pm? =>
    let pm := pm?.getD []
    upsert pm c (fun cm? =>
      let cm := cm?.getD []
      if amem cm d then cm else cm ++ [(d, z)]))

/-- The combined character class
`[０-９一二三四五六七八九十\d]` of the chome-range patterns. -/
def clsChomeAll (c : Char) : Bool :=
  isFullDigit c || isKanjiNumChar c || isAsciiDigit c

/-- `re.search` of the parenthesized range pattern
`（cls+〜cls+丁目）`: the two captured runs of the leftmost match. -/
def findParenRange (cls : Char → Bool) : List Char → Option (List Char × List Char)
  | [] => none
  | c :: rest =>
    if c = '（' then
      let r1 := rest.takeWhile cls
      let after1 := rest.dropWhile cls
      match r1, after1 with
      | _ :: _, t :: rest2 =>
        if t = '〜' then
          let r2 := rest2.takeWhile cls
          let after2 := rest2.dropWhile cls
          if !r2.isEmpty && ['丁', '目', '）'].isPrefixOf after2 then some (r1, r2)
          else findParenRange cls rest
        else findParenRange cls rest
      | _, _ => findParenRange cls rest
    else findParenRange cls rest

/-- `re.search` of the parenthesized specific-lot pattern `（cls+番地）`:
the captured digit run of the leftmost match. -/
def findParenBanchi (cls : Char → Bool) : List Char → Option (List Char)
  | [] => none
  | c :: rest =>
    if c = '（' then
      let r := rest.takeWhile cls
      let after := rest.dropWhile cls
      if !r.isEmpty && ['番', '地', '）'].isPrefixOf after then some r
      else findParenBanchi cls rest
    else findParenBanchi cls rest

/-- Lazy scan of `.*?` up to a closing character: the remainder after the
first close, failing on a newline or the end. -/
def scanToClose (cl : Char) : List Char → Option (List Char)
  | [] => none
  | c :: rest =>
    if c = cl then some rest
    else if c = '\n' then none
    else scanToClose cl rest

theorem scanToCloseLength (cl : Char) :
    ∀ l r, scanToClose cl l = some r → r.length < l.length := by
  intro l
  induction l with
  | nil => intro r h; simp [scanToClose] at h
  | cons c rest ih =>
    intro r h
    rw [scanToClose] at h
    split at h
    · cases h; simp
    · split at h
      · cases h
      · have := ih r h; simp; omega

/-- `re.sub(r'（.*?）', '', s)` (and its half-width twin): remove every
non-overlapping minimal parenthesized group. -/
def removeParenPairsF (op cl : Char) : Nat → List Char → List Char
  | _, [] => []
  | 0, l => l
  | fuel + 1, c :: rest =>
    if c = op then
      match scanToClose cl rest with
      | some rem => removeParenPairsF op cl fuel rem
      | none => c :: removeParenPairsF op cl fuel rest
    else c :: removeParenPairsF op cl fuel rest

def removeParenPairs (op cl : Char) (l : List Char) : List Char :=
  removeParenPairsF op cl l.length l

/-- `AddressResolver._clean_district_name`. -/
def cleanDistrictName (district : List Char) : List Char :=
  if (findParenRange clsChomeAll district).isSome then strip district
  else if (findParenBanchi (fun c => isFullDigit c || isAsciiDigit c) district).isSome
      || containsSub "（その他）".toList district then strip district
  else strip (removeParenPairs '(' ')' (removeParenPairs '（' '）' district))

/-- Field extraction and skip conditions of one registry row
(`AddressResolver._build_index` loop body). -/
def parseRow (row : List Str) : Option (Str × Str × Str × Str) :=
  if row.length < 9 then none
  else
    let zipcode := row.getD 2 []
    let prefecture := row.getD 6 []
    let city := row.getD 7 []
    let district := row.getD 8 []
    if isBlank district then none
    else some (prefecture, city, cleanDistrictName district, zipcode)

/-- `AddressResolver._build_index` over already-decoded rows. -/
def buildIndex (rows : List (List Str)) : Index :=
  rows.foldl (fun idx row =>
    match parseRow row with
    | none => idx
    | some (p, c, d, z) => insertTriple idx p c d z) []

/-- `re.search(r'(cls+)' + marker, s)`: the leftmost maximal `cls` run
immediately followed by `marker`. -/
def findRunMarkerF (cls : Char → Bool) (marker : List Char) : Nat → List Char → Option (List Char)
  | _, [] => none
  | 0, _ => none
  | fuel + 1, c :: rest =>
    if cls c then
      let run := c :: rest.takeWhile cls
      let after := rest.dropWhile cls
      if marker.isPrefixOf after then some run
      else findRunMarkerF cls marker fuel after
    else findRunMarkerF cls marker fuel rest

def findRunMarker (cls : Char → Bool) (marker l : List Char) : Option (List Char) :=
  findRunMarkerF cls marker l.length l

/-- `AddressResolver._extract_chome_number`: half-width (`\d`, which also
covers full-width digits), full-width, then kanji block numbers. -/
def extractChomeNumber (district : List Char) : Option Nat :=
  match findRunMarker isDecDigit ['丁', '目'] district with
  | some run => some (digitsToNat run)
  | none =>
    match findRunMarker isFullDigit ['丁', '目'] district with
    | some run => some (digitsToNat run)
    | none =>
      match findRunMarker isKanjiNumChar ['丁', '目'] district with
      | some run => convertKanjiToNumber run
      | none => none

/-- `AddressResolver._extract_chome_range`: full-width, half-width (`\d`),
then kanji range patterns. -/
def extractChomeRange (district : List Char) : Option (Nat × Nat) :=
  match findParenRange isFullDigit district with
  | some (r1, r2) => some (digitsToNat r1, digitsToNat r2)
  | none =>
    match findParenRange isDecDigit district with
    | some (r1, r2) => some (digitsToNat r1, digitsToNat r2)
    | none =>
      match findParenRange isKanjiNumChar district with
      | some (r1, r2) =>
        match convertKanjiToNumber r1, convertKanjiToNumber r2 with
        | some s, some e => some (s, e)
        | _, _ => none
      | none => none

/-- `AddressResolver._is_chome_in_range`. -/
def isChomeInRange (chomeNum : Nat) (rangeDistrict : List Char) : Bool :=
  match extractChomeRange rangeDistrict with
  | some (s, e) => s ≤ chomeNum && chomeNum ≤ e
  | none => false

/-- `AddressResolver._matches_specific_address`. -/
def matchesSpecificAddress (inputDistrict : Str) (specificEntries : List (Str × Str)) : Bool :=
  specificEntries.any (fun e =>
    match findParenBanchi (fun c => isAsciiDigit c || isFullDigit c) e.1 with
    | some num =>
      let numHalf := num.map fullDigitToHalf
      containsSub num inputDistrict || containsSub numHalf inputDistrict ||
        containsSub (num ++ ['番', '地']) inputDistrict ||
        containsSub (numHalf ++ ['番', '地']) inputDistrict
    | none => false)

/-- `re.sub(r'（.*?）.*$', '', stored_district)` of `_exact_match`: text
before the first completed parenthesized group whose tail `.*$` can consume. -/
def stripParenTail : List Char → List Char
  | [] => []
  | c :: rest =>
    if c = '（' then
      match scanToClose '）' rest with
      | some rem => if dotStarEndOk rem then dotStarEndKeep rem else c :: stripParenTail rest
      | none => c :: stripParenTail rest
    else c :: stripParenTail rest

/-- `base_district` of `AddressResolver._exact_match`:
`re.sub(r'[0-9０-９一二三四五六七八九十]+丁目.*$', '', district).strip()`. -/
def extractBaseDistrict (district : Str) : Str :=
  strip (stripRunMarkerTail clsChomeAll ['丁', '目'] district)

/-- The per-entry test of the chome-range loop in `_exact_match`: the input
block number lies in the stored key's range and the stored key's area name
(before any parenthesis) equals the base district, both sides canonicalized
by the kanji-numeral conversion. -/
def chomeRangeCond (baseDistrict : Str) (n : Nat) (e : Str × Str) : Bool :=
  isChomeInRange n e.1 &&
    (convertKanjiNumbers (strip (stripParenTail e.1)) == convertKanjiNumbers baseDistrict)

/-- The chome-range phase of `AddressResolver._exact_match` (run after every
district variant has missed the index). -/
def chomeRangeSearch (district : Str) (cityDistricts : CityMap) : Option Str :=
  match extractChomeNumber district with
  | none => none
  | some n =>
    (cityDistricts.find? (chomeRangeCond (extractBaseDistrict district) n)).map (·.2)

/-- The per-city part of `AddressResolver._exact_match`: the staged variant
lookup, then the chome-range search. -/
def exactMatchDistrict (district : Str) (cityDistricts : CityMap) : Option Str :=
  match (generateDistrictVariants district).findSome? (alookup cityDistricts) with
  | some z => some z
  | none => chomeRangeSearch district cityDistricts

/-- `AddressResolver._exact_match` (the `except (KeyError, ValueError)`
handler makes a segmentation failure a `None` result). -/
def exactMatch (idx : Index) (address : Str) : Option Str :=
  match parseAddress address with
  | .error _ => none
  | .ok (prefecture, city, district) =>
    match alookup idx prefecture with
    | none => none
    | some pm =>
      match alookup pm city with
      | none => none
      | some cityDistricts => exactMatchDistrict district cityDistricts

/-- The body of the per-variant loop of `AddressResolver._fallback_search`:
prefix match with specific-lot disambiguation, then substring match, then
reverse prefix match. -/
def fallbackVariant (district : Str) (cityDistricts : CityMap) (variant : Str) : Option Str :=
  let matching := cityDistricts.filter (fun e => variant.isPrefixOf e.1)
  if !matching.isEmpty then
    let specific := matching.filter (fun e =>
      containsSub ['（'] e.1 && containsSub ['番', '地', '）'] e.1)
    let others := matching.filter (fun e =>
      !(containsSub ['（'] e.1 && containsSub ['番', '地', '）'] e.1) &&
        containsSub "（その他）".toList e.1)
    if !specific.isEmpty && !district.isEmpty then
      if matchesSpecificAddress district specific then specific.head?.map (·.2)
      else if !others.isEmpty then others.head?.map (·.2)
      else matching.head?.map (·.2)
    else matching.head?.map (·.2)
  else
    match cityDistricts.find? (fun e => containsSub variant e.1) with
    | some e => some e.2
    | none => (cityDistricts.find? (fun e => e.1.isPrefixOf variant)).map (·.2)

/-- `AddressResolver._fallback_search`. -/
def fallbackSearch (idx : Index) (address : Str) : Option Str :=
  match parseAddress address with
  | .error _ => none
  | .ok (prefecture, city, district) =>
    match alookup idx prefecture with
    | none => none
    | some pm =>
      match alookup pm city with
      | none => none
      | some cityDistricts =>
        (generateDistrictVariants district).findSome? (fallbackVariant district cityDistricts)

/-- The ordered generic labels of `AddressResolver._generic_fallback_search`. -/
def genericPatterns : List Str :=
  ["以下に掲載がない場合".toList, "その他".toList, "該当地域なし".toList]

/-- `AddressResolver._generic_fallback_search`. -/
def genericFallbackSearch (idx : Index) (address : Str) : Option Str :=
  match parseAddress address with
  | .error _ => none
  | .ok (prefecture, city, _) =>
    match alookup idx prefecture with
    | none => none
    | some pm =>
      match alookup pm city with
      | none => none
      | some cityDistricts => genericPatterns.findSome? (alookup cityDistricts)

/-- Python truthiness of an `Optional[str]` phase result: a present,
non-empty string. -/
def truthy (o : Option Str) : Bool :=
  match o with
  | some z => !z.isEmpty
  | none => false

/-- `AddressResolver.resolve`: reject blank input, normalize, then the three
phases in order. -/
def resolve (idx : Index) (address : Str) : Except PyErr (Option Str) :=
  if isBlank address then .error .invalidInput
  else
    match normalizeE address with
    | .error e => .error e
    | .ok normalized =>
      let r1 := exactMatch idx normalized
      if truthy r1 then .ok r1
      else
        let r2 := fallbackSearch idx normalized
        if truthy r2 then .ok r2
        else .ok (genericFallbackSearch idx normalized)

/-! ## Claim-support definitions -/

/-- Composite lookup of a (prefecture, city, district) triple in the index. -/
def lookup3 (idx : Index) (p c d : Str) : Option Str :=
  (alookup idx p).bind (fun pm => (alookup pm c).bind (fun cm => alookup cm d))

/-- The kanji digit character of value 1..9. -/
def kanjiDigitChar : Nat → Char
  | 1 => '一' | 2 => '二' | 3 => '三' | 4 => '四' | 5 => '五'
  | 6 => '六' | 7 => '七' | 8 => '八' | 9 => '九' | _ => ' '

/-- The kanji-word numeral of value `n` (1..99): single digit, 十,
十+digit, digit+十, or digit+十+digit — the shapes named by the numeral
conversion rule. -/
def kanjiNumeral (n : Nat) : List Char :=
  if n < 10 then [kanjiDigitChar n]
  else if n = 10 then ['十']
  else if n < 20 then ['十', kanjiDigitChar (n - 10)]
  else if n % 10 = 0 then [kanjiDigitChar (n / 10), '十']
  else [kanjiDigitChar (n / 10), '十', kanjiDigitChar (n % 10)]

/-- Stored keys of the fallback prefix phase that start with the variant. -/
def isPrefixEntry (variant : Str) (e : Str × Str) : Bool :=
  variant.isPrefixOf e.1

/-- Prefix-matching keys classified as specific-lot entries
(`'（' in stored and '番地）' in stored`). -/
def isSpecificEntry (variant : Str) (e : Str × Str) : Bool :=
  isPrefixEntry variant e && (containsSub ['（'] e.1 && containsSub ['番', '地', '）'] e.1)

/-- Prefix-matching keys classified as "other" entries: the `elif` branch of
the classification loop keeps a key only when it did not already qualify as a
specific-lot entry (`'（' in stored and '番地）' in stored`) and it contains
`'（その他）'`. -/
def isOthersEntry (variant : Str) (e : Str × Str) : Bool :=
  isPrefixEntry variant e &&
    (!(containsSub ['（'] e.1 && containsSub ['番', '地', '）'] e.1) &&
      containsSub "（その他）".toList e.1)

/-- The kanji-word numeral rule as the specification states it, to be
compared with the conversion function of the source: a single kanji digit is
its value 1–9; the ten character alone is 10; ten+digit is 11–19; digit+ten
is digit×10, valid only when at most 48; digit+ten+digit is tens×10+ones,
valid only when at most 48; every other shape is unconvertible. -/
def specKanjiWordValue : List Char → Option Nat
  | [c] => if c = '十' then some 10 else kanjiDigit? c
  | [c1, c2] =>
    if c1 = '十' then (kanjiDigit? c2).map (fun d => 10 + d)
    else if c2 = '十' then
      (kanjiDigit? c1).bind (fun d => if d * 10 ≤ 48 then some (d * 10) else none)
    else none
  | [c1, c2, c3] =>
    if c2 = '十' then
      (kanjiDigit? c1).bind (fun d =>
        (kanjiDigit? c3).bind (fun e => if d * 10 + e ≤ 48 then some (d * 10 + e) else none))
    else none
  | _ => none

end A2Z

deriving instance DecidableEq for Except

namespace A2Z

/-! ## Theorems -/

set_option maxRecDepth 10000

theorem kanjiDigitLe (c : Char) (d : Nat) (h : kanjiDigit? c = some d) : 1 ≤ d ∧ d ≤ 9 := by
  unfold kanjiDigit? at h
  split_ifs at h <;> simp at h <;> omega

theorem convertKanjiToNumberLe (l : List Char) (m : Nat)
    (h : convertKanjiToNumber l = some m) : m ≤ 48 := by
  match l with
  | [] => simp [convertKanjiToNumber] at h
  | [c] =>
    simp only [convertKanjiToNumber] at h
    split_ifs at h with h1 h2
    · have := kanjiDigitLe c m h
      omega
    · rw [Option.some.injEq] at h
      omega
  | [c1, c2] =>
    simp only [convertKanjiToNumber] at h
    split_ifs at h with h1 h2
    · rw [Option.map_eq_some'] at h
      obtain ⟨d, hd, hm⟩ := h
      have := kanjiDigitLe c2 d hd
      omega
    · cases hk : kanjiDigit? c1 with
      | none => rw [hk] at h; simp at h
      | some t =>
        rw [hk] at h
        simp only [] at h
        split_ifs at h with h3
        · rw [Option.some.injEq] at h
          omega
  | [c1, c2, c3] =>
    simp only [convertKanjiToNumber] at h
    split_ifs at h with h1
    cases hk1 : kanjiDigit? c1 with
    | none => rw [hk1] at h; simp at h
    | some t =>
      cases hk3 : kanjiDigit? c3 with
      | none => rw [hk1, hk3] at h; simp at h
      | some o =>
        rw [hk1, hk3] at h
        simp only [] at h
        split_ifs at h with h3
        · rw [Option.some.injEq] at h
          omega
  | c1 :: c2 :: c3 :: c4 :: rest => simp [convertKanjiToNumber] at h

/-- A `takeWhile` over an all-true block stops exactly at a failing head. -/
theorem takeWhile_append_not (p : Char → Bool) :
    ∀ (xs : List Char) (y : Char) (ys : List Char), xs.all p = true → p y = false →
      (xs ++ y :: ys).takeWhile p = xs := by
  intro xs
  induction xs with
  | nil =>
    intro y ys _ hy
    rw [List.nil_append, List.takeWhile_cons, if_neg (by simp [hy])]
  | cons a rest ih =>
    intro y ys hall hy
    simp only [List.all_cons, Bool.and_eq_true] at hall
    rw [List.cons_append, List.takeWhile_cons, if_pos hall.1, ih y ys hall.2 hy]

/-- A `dropWhile` over an all-true block drops exactly up to a failing head. -/
theorem dropWhile_append_not (p : Char → Bool) :
    ∀ (xs : List Char) (y : Char) (ys : List Char), xs.all p = true → p y = false →
      (xs ++ y :: ys).dropWhile p = y :: ys := by
  intro xs
  induction xs with
  | nil =>
    intro y ys _ hy
    rw [List.nil_append, List.dropWhile_cons, if_neg (by simp [hy])]
  | cons a rest ih =>
    intro y ys hall hy
    simp only [List.all_cons, Bool.and_eq_true] at hall
    rw [List.cons_append, List.dropWhile_cons, if_pos hall.1, ih y ys hall.2 hy]

/-- The kanji-marker pass is the identity on text carrying no kanji-numeral
character. -/
theorem convertKanjiMarkerPassF_noclass (marker : List Char) :
    ∀ (fuel : Nat) (l : List Char), l.all (fun c => !isKanjiNumChar c) = true →
      convertKanjiMarkerPassF marker fuel l = l := by
  intro fuel
  induction fuel with
  | zero => intro l _; cases l <;> rfl
  | succ fuel ih =>
    intro l hall
    cases l with
    | nil => rfl
    | cons a rest =>
      simp only [List.all_cons, Bool.and_eq_true] at hall
      have ha : isKanjiNumChar a = false := by
        cases h : isKanjiNumChar a
        · rfl
        · rw [h] at hall
          exact absurd hall.1 (by decide)
      simp only [convertKanjiMarkerPassF]
      rw [if_neg (by simp [ha]), ih rest hall.2]

/-- Scanning `pre ++ w ++ marker ++ suf` where the surrounding text carries
no kanji-numeral character and `w` is a nonempty kanji-numeral run: the run
matches the marker pattern and the replacement callback runs, keeping the
run verbatim when the conversion fails. -/
theorem convertKanjiMarkerPassF_context (marker : List Char) (m0 : Char) (mrest : List Char)
    (hm : marker = m0 :: mrest) (hm0 : isKanjiNumChar m0 = false) :
    ∀ (pre : List Char), pre.all (fun c => !isKanjiNumChar c) = true →
    ∀ (w : List Char), w ≠ [] → w.all isKanjiNumChar = true →
    ∀ (suf : List Char), suf.all (fun c => !isKanjiNumChar c) = true →
    ∀ (fuel : Nat), (pre ++ w ++ marker ++ suf).length ≤ fuel →
      convertKanjiMarkerPassF marker fuel (pre ++ w ++ marker ++ suf)
        = pre ++ (convertKanjiToNumber w).elim w natToDigits ++ marker ++ suf := by
  subst hm
  intro pre
  induction pre with
  | nil =>
    intro _ w hw hwall suf hsuf fuel hfuel
    cases w with
    | nil => exact absurd rfl hw
    | cons w0 wrest =>
      simp only [List.all_cons, Bool.and_eq_true] at hwall
      cases fuel with
      | zero =>
        simp only [List.length_append, List.length_cons, List.length_nil] at hfuel
        omega
      | succ fuel =>
        simp only [List.nil_append, List.append_assoc, List.cons_append]
        simp only [convertKanjiMarkerPassF]
        rw [if_pos hwall.1]
        rw [takeWhile_append_not isKanjiNumChar wrest m0 (mrest ++ suf) hwall.2 hm0]
        rw [dropWhile_append_not isKanjiNumChar wrest m0 (mrest ++ suf) hwall.2 hm0]
        have hpref : (m0 :: mrest).isPrefixOf (m0 :: (mrest ++ suf)) = true :=
          List.isPrefixOf_iff_prefix.mpr (List.prefix_append (m0 :: mrest) suf)
        rw [if_pos hpref]
        have hdrop : (m0 :: (mrest ++ suf)).drop (m0 :: mrest).length = suf :=
          List.drop_left (m0 :: mrest) suf
        rw [hdrop, convertKanjiMarkerPassF_noclass (m0 :: mrest) fuel suf hsuf]
        cases hval : convertKanjiToNumber (w0 :: wrest) <;> simp [Option.elim]
  | cons p0 pre' ih =>
    intro hall w hw hwall suf hsuf fuel hfuel
    simp only [List.all_cons, Bool.and_eq_true] at hall
    have hp0 : isKanjiNumChar p0 = false := by
      cases h : isKanjiNumChar p0
      · rfl
      · rw [h] at hall
        exact absurd hall.1 (by decide)
    cases fuel with
    | zero =>
      simp only [List.length_append, List.length_cons] at hfuel
      omega
    | succ fuel =>
      simp only [List.cons_append]
      simp only [convertKanjiMarkerPassF]
      rw [if_neg (by simp [hp0])]
      rw [ih hall.2 w hw hwall suf hsuf fuel
        (by simp only [List.length_append, List.length_cons] at hfuel ⊢; omega)]

/-- Scanning `pre ++ w ++ rest` where the marker is not a prefix of `rest`:
the kanji-numeral run `w` is skipped unchanged. -/
theorem convertKanjiMarkerPassF_skip (marker rest : List Char) (k0 : Char) (ks : List Char)
    (hrest : rest = k0 :: ks) (hfail : marker.isPrefixOf rest = false) :
    ∀ (pre : List Char), pre.all (fun c => !isKanjiNumChar c) = true →
    ∀ (w : List Char), w ≠ [] → w.all isKanjiNumChar = true →
      rest.all (fun c => !isKanjiNumChar c) = true →
    ∀ (fuel : Nat), (pre ++ w ++ rest).length ≤ fuel →
      convertKanjiMarkerPassF marker fuel (pre ++ w ++ rest) = pre ++ w ++ rest := by
  subst hrest
  intro pre
  induction pre with
  | nil =>
    intro _ w hw hwall hrall fuel hfuel
    cases w with
    | nil => exact absurd rfl hw
    | cons w0 wrest =>
      simp only [List.all_cons, Bool.and_eq_true] at hwall
      have hk0 : isKanjiNumChar k0 = false := by
        simp only [List.all_cons, Bool.and_eq_true] at hrall
        cases h : isKanjiNumChar k0
        · rfl
        · rw [h] at hrall
          exact absurd hrall.1 (by decide)
      cases fuel with
      | zero =>
        simp only [List.length_append, List.length_cons, List.length_nil] at hfuel
        omega
      | succ fuel =>
        simp only [List.nil_append, List.cons_append]
        simp only [convertKanjiMarkerPassF]
        rw [if_pos hwall.1]
        rw [takeWhile_append_not isKanjiNumChar wrest k0 ks hwall.2 hk0]
        rw [dropWhile_append_not isKanjiNumChar wrest k0 ks hwall.2 hk0]
        rw [if_neg (by simp [hfail])]
        rw [convertKanjiMarkerPassF_noclass marker fuel (k0 :: ks) hrall]
        simp
  | cons p0 pre' ih =>
    intro hall w hw hwall hrall fuel hfuel
    simp only [List.all_cons, Bool.and_eq_true] at hall
    have hp0 : isKanjiNumChar p0 = false := by
      cases h : isKanjiNumChar p0
      · rfl
      · rw [h] at hall
        exact absurd hall.1 (by decide)
    cases fuel with
    | zero =>
      simp only [List.length_append, List.length_cons] at hfuel
      omega
    | succ fuel =>
      simp only [List.cons_append]
      simp only [convertKanjiMarkerPassF]
      rw [if_neg (by simp [hp0])]
      rw [ih hall.2 w hw hwall hrall fuel
        (by simp only [List.length_append, List.length_cons] at hfuel ⊢; omega)]

/-- The conversion function of the source agrees with the specification's
numeral rule on every string. -/
theorem convertKanjiToNumber_spec :
    ∀ w : List Char, convertKanjiToNumber w = specKanjiWordValue w := by
  intro w
  rcases w with _ | ⟨c1, _ | ⟨c2, _ | ⟨c3, _ | ⟨c4, rest⟩⟩⟩⟩
  · rfl
  · by_cases h1 : c1 = '十'
    · subst h1
      decide
    · cases hd : kanjiDigit? c1 <;>
        simp [convertKanjiToNumber, specKanjiWordValue, h1, hd]
  · by_cases h1 : c1 = '十'
    · subst h1
      simp [convertKanjiToNumber, specKanjiWordValue]
    · by_cases h2 : c2 = '十'
      · subst h2
        cases hd : kanjiDigit? c1 <;>
          simp [convertKanjiToNumber, specKanjiWordValue, h1, hd]
      · simp [convertKanjiToNumber, specKanjiWordValue, h1, h2]
  · by_cases h2 : c2 = '十'
    · subst h2
      cases hd1 : kanjiDigit? c1 <;> cases hd3 : kanjiDigit? c3 <;>
        simp [convertKanjiToNumber, specKanjiWordValue, hd1, hd3]
    · simp [convertKanjiToNumber, specKanjiWordValue, h2]
  · rfl

/-- Values assigned by the numeral rule never exceed 48. -/
theorem specKanjiWordValue_le (w : List Char) (N : Nat)
    (h : specKanjiWordValue w = some N) : N ≤ 48 :=
  convertKanjiToNumberLe w N (by rw [convertKanjiToNumber_spec]; exact h)

/-- Decimal digit strings up to 48 carry no kanji-numeral character. -/
theorem natToDigits_noclass :
    ∀ m, m < 49 → (natToDigits m).all (fun c => !isKanjiNumChar c) = true := by
  decide

/-- A prefix check fails at differing heads. -/
theorem isPrefixOf_cons_ne (a b : Char) (as bs : List Char) (h : a ≠ b) :
    List.isPrefixOf (a :: as) (b :: bs) = false := by
  rw [List.isPrefixOf_cons₂, beq_eq_false_iff_ne.mpr h, Bool.false_and]

/-- C5 — Kanji numeral conversion: (i) the source's kanji-word conversion
agrees with the numeral rule on every string (single digit 1–9, 十 alone =
10, 十+digit = 11–19, digit+十 and digit+十+digit valid only up to 48,
every other compound shape unconvertible); (ii) inside any address
`pre ++ w ++ marker ++ suf` whose surrounding text carries no kanji-numeral
character, a nonempty kanji-numeral run `w` that the rule values at N is
replaced by the decimal digits of N, and a run the rule rejects (malformed
compound or over 48) is preserved unchanged, for both the 丁目 and the 条
marker; (iii) concretely, every canonical numeral 1–48 converts before both
markers and (iv) every canonical numeral 49–99 is preserved. -/
theorem claim5_kanji_numeral_conversion :
    (∀ w : List Char, convertKanjiToNumberSimple w = (specKanjiWordValue w).map natToDigits) ∧
    (∀ marker : List Char, marker = ['丁', '目'] ∨ marker = ['条'] →
      ∀ pre w suf : List Char,
        pre.all (fun c => !isKanjiNumChar c) = true →
        suf.all (fun c => !isKanjiNumChar c) = true →
        w ≠ [] → w.all isKanjiNumChar = true →
        (∀ N, specKanjiWordValue w = some N →
          convertKanjiNumbers (pre ++ w ++ marker ++ suf)
            = pre ++ natToDigits N ++ marker ++ suf) ∧
        (specKanjiWordValue w = none →
          convertKanjiNumbers (pre ++ w ++ marker ++ suf)
            = pre ++ w ++ marker ++ suf)) ∧
    (∀ n, 1 ≤ n → n < 49 →
      convertKanjiNumbers (kanjiNumeral n ++ ['丁', '目']) = natToDigits n ++ ['丁', '目'] ∧
      convertKanjiNumbers (kanjiNumeral n ++ ['条']) = natToDigits n ++ ['条']) ∧
    (∀ n, 49 ≤ n → n < 100 →
      convertKanjiNumbers (kanjiNumeral n ++ ['丁', '目']) = kanjiNumeral n ++ ['丁', '目'] ∧
      convertKanjiNumbers (kanjiNumeral n ++ ['条']) = kanjiNumeral n ++ ['条']) := by
  refine ⟨?_, ?_, ?_, ?_⟩
  · intro w
    unfold convertKanjiToNumberSimple
    rw [convertKanjiToNumber_spec]
  · intro marker hm pre w suf hpre hsuf hw hwall
    constructor
    · intro N hN
      have hc2 : convertKanjiToNumber w = some N := by
        rw [convertKanjiToNumber_spec]
        exact hN
      have hM : (convertKanjiToNumber w).elim w natToDigits = natToDigits N := by
        rw [hc2]
        rfl
      have hdig := natToDigits_noclass N (by have := specKanjiWordValue_le w N hN; omega)
      rcases hm with hm | hm <;> subst hm
      · unfold convertKanjiNumbers convertKanjiMarkerPass
        rw [convertKanjiMarkerPassF_context ['丁', '目'] '丁' ['目'] rfl (by decide)
              pre hpre w hw hwall suf hsuf _ (le_refl _), hM]
        apply convertKanjiMarkerPassF_noclass
        simp [List.all_append, hpre, hsuf, hdig] <;> decide
      · unfold convertKanjiNumbers convertKanjiMarkerPass
        rw [List.append_assoc (pre ++ w) ['条'] suf]
        rw [convertKanjiMarkerPassF_skip ['丁', '目'] (['条'] ++ suf) '条' suf rfl
              (isPrefixOf_cons_ne '丁' '条' ['目'] suf (by decide))
              pre hpre w hw hwall
              (by simp [List.all_append, hsuf, (by decide : (!isKanjiNumChar '条') = true)])
              _ (le_refl _)]
        rw [← List.append_assoc (pre ++ w) ['条'] suf]
        rw [convertKanjiMarkerPassF_context ['条'] '条' [] rfl (by decide)
              pre hpre w hw hwall suf hsuf _ (le_refl _), hM]
    · intro hN
      have hc2 : convertKanjiToNumber w = none := by
        rw [convertKanjiToNumber_spec]
        exact hN
      have hM : (convertKanjiToNumber w).elim w natToDigits = w := by
        rw [hc2]
        rfl
      rcases hm with hm | hm <;> subst hm
      · unfold convertKanjiNumbers convertKanjiMarkerPass
        rw [convertKanjiMarkerPassF_context ['丁', '目'] '丁' ['目'] rfl (by decide)
              pre hpre w hw hwall suf hsuf _ (le_refl _), hM]
        rw [List.append_assoc (pre ++ w) ['丁', '目'] suf]
        rw [convertKanjiMarkerPassF_skip ['条'] (['丁', '目'] ++ suf) '丁' ('目' :: suf) rfl
              (isPrefixOf_cons_ne '条' '丁' [] ('目' :: suf) (by decide))
              pre hpre w hw hwall
              (by simp [List.all_append, hsuf, (by decide : (!isKanjiNumChar '丁') = true),
                    (by decide : (!isKanjiNumChar '目') = true)])
              _ (le_refl _)]
      · unfold convertKanjiNumbers convertKanjiMarkerPass
        rw [List.append_assoc (pre ++ w) ['条'] suf]
        rw [convertKanjiMarkerPassF_skip ['丁', '目'] (['条'] ++ suf) '条' suf rfl
              (isPrefixOf_cons_ne '丁' '条' ['目'] suf (by decide))
              pre hpre w hw hwall
              (by simp [List.all_append, hsuf, (by decide : (!isKanjiNumChar '条') = true)])
              _ (le_refl _)]
        rw [← List.append_assoc (pre ++ w) ['条'] suf]
        rw [convertKanjiMarkerPassF_context ['条'] '条' [] rfl (by decide)
              pre hpre w hw hwall suf hsuf _ (le_refl _), hM]
  · decide
  · decide

/-- Witness for C5: applying the contextual clause at 北二十三条通 (the
in-rule numeral 23 converts) and at 北五十五条通 (55 exceeds the cap and is
preserved). -/
theorem claim5_witness :
    convertKanjiNumbers ("北".toList ++ "二十三".toList ++ ['条'] ++ "通".toList)
      = "北".toList ++ natToDigits 23 ++ ['条'] ++ "通".toList ∧
    convertKanjiNumbers ("北".toList ++ "五十五".toList ++ ['条'] ++ "通".toList)
      = "北".toList ++ "五十五".toList ++ ['条'] ++ "通".toList :=
  ⟨(claim5_kanji_numeral_conversion.2.1 ['条'] (Or.inr rfl)
      "北".toList "二十三".toList "通".toList
      (by decide) (by decide) (by decide) (by decide)).1 23 (by decide),
   (claim5_kanji_numeral_conversion.2.1 ['条'] (Or.inr rfl)
      "北".toList "五十五".toList "通".toList
      (by decide) (by decide) (by decide) (by decide)).2 (by decide)⟩

/-- Helper: a non-blank address on which every phase fails resolves to the
absent result. -/
theorem resolve_absent_of_phases_none (idx : Index) (address : Str)
    (hb : isBlank address = false)
    (h1 : exactMatch idx (normalizeCore address) = none)
    (h2 : fallbackSearch idx (normalizeCore address) = none)
    (h3 : genericFallbackSearch idx (normalizeCore address) = none) :
    resolve idx address = .ok none := by
  unfold resolve normalizeE
  simp [hb, h1, h2, h3, truthy]

/-- C3 — `resolve` and `normalize` raise `InvalidInput` exactly on empty
or whitespace-only input; on any other input where all three phases fail,
`resolve` returns the absent result, not an error. -/
theorem claim3_invalid_input_iff_blank (idx : Index) (address : Str) :
    (normalizeE address = .error .invalidInput ↔ isBlank address = true) ∧
    (resolve idx address = .error .invalidInput ↔ isBlank address = true) ∧
    (isBlank address = false →
      exactMatch idx (normalizeCore address) = none →
      fallbackSearch idx (normalizeCore address) = none →
      genericFallbackSearch idx (normalizeCore address) = none →
      resolve idx address = .ok none) := by
  refine ⟨?_, ?_, ?_⟩
  · unfold normalizeE
    cases h : isBlank address <;> simp [h]
  · unfold resolve normalizeE
    cases h : isBlank address <;> simp [h]
    split
    · simp
    · split <;> simp
  · exact resolve_absent_of_phases_none idx address

/-- Witness for C3: a non-blank address that misses an empty index resolves
to the absent result. -/
theorem claim3_witness :
    resolve [] "東京都港区六本木".toList = .ok none :=
  (claim3_invalid_input_iff_blank [] "東京都港区六本木".toList).2.2
    (by decide) (by decide) (by decide) (by decide)

/-- C9 — For every non-empty, non-whitespace-only address, `resolve`
never surfaces a segmentation error: it always returns a result, and when
the normalized address cannot be segmented every phase swallows the failure
and the result is absent. -/
theorem claim9_resolve_never_segfaults (idx : Index) (address : Str) :
    isBlank address = false →
    (∃ r, resolve idx address = .ok r) ∧
    (parseAddress (normalizeCore address) = .error .segmentation →
      resolve idx address = .ok none) := by
  intro hb
  constructor
  · unfold resolve normalizeE
    simp [hb]
    split
    · exact ⟨_, rfl⟩
    · split
      · exact ⟨_, rfl⟩
      · exact ⟨_, rfl⟩
  · intro hp
    have h1 : exactMatch idx (normalizeCore address) = none := by
      unfold exactMatch; rw [hp]
    have h2 : fallbackSearch idx (normalizeCore address) = none := by
      unfold fallbackSearch; rw [hp]
    have h3 : genericFallbackSearch idx (normalizeCore address) = none := by
      unfold genericFallbackSearch; rw [hp]
    exact resolve_absent_of_phases_none idx address hb h1 h2 h3

/-- Witness for C9: an address with no prefecture marker resolves to absent
on a non-empty index. -/
theorem claim9_witness :
    resolve [("東京都".toList, [("港区".toList, [("六本木".toList, "1060032".toList)])])]
      "ABCDEF".toList = .ok none :=
  ((claim9_resolve_never_segfaults _ "ABCDEF".toList (by decide)).2 (by decide))

/-- A lazy marker split decomposes its input. -/
theorem lazySplitAt_append (isM : Char → Bool) :
    ∀ l p r, lazySplitAt isM l = some (p, r) → l = p ++ r := by
  intro l
  induction l with
  | nil => intro p r h; simp [lazySplitAt] at h
  | cons c rest ih =>
    intro p r h
    unfold lazySplitAt at h
    split at h
    · simp at h
      obtain ⟨h1, h2⟩ := h
      rw [← h1, ← h2]
      rfl
    · split at h
      · simp at h
      · cases hrec : lazySplitAt isM rest with
        | none => rw [hrec] at h; simp at h
        | some pr =>
          rw [hrec] at h
          simp at h
          obtain ⟨h1, h2⟩ := h
          have := ih pr.1 pr.2 (by rw [hrec])
          rw [← h1, ← h2]
          simp [this]

/-- A double lazy split (patterns 1 and 2) returns a prefix. -/
theorem doubleSplit_isPrefix (isM1 isM2 : Char → Bool) (r c : Str)
    (h : (match lazySplitAt isM1 r with
          | some (p1, r1) =>
            match lazySplitAt isM2 r1 with
            | some (p2, _) => some (p1 ++ p2)
            | none => none
          | none => none) = some c) : ∃ d, r = c ++ d := by
  cases hs : lazySplitAt isM1 r with
  | none => rw [hs] at h; simp at h
  | some pr =>
    obtain ⟨p1, r1⟩ := pr
    rw [hs] at h
    simp only [] at h
    cases hs2 : lazySplitAt isM2 r1 with
    | none => rw [hs2] at h; simp at h
    | some pr2 =>
      obtain ⟨p2, r2⟩ := pr2
      rw [hs2] at h
      simp at h
      refine ⟨r2, ?_⟩
      have e1 := lazySplitAt_append _ r p1 r1 hs
      have e2 := lazySplitAt_append _ r1 p2 r2 hs2
      rw [← h, e1, e2]
      simp

theorem cityPat1_isPrefix (r c : Str) (h : cityPat1 r = some c) : ∃ d, r = c ++ d :=
  doubleSplit_isPrefix _ _ r c h

theorem cityPat2_isPrefix (r c : Str) (h : cityPat2 r = some c) : ∃ d, r = c ++ d :=
  doubleSplit_isPrefix _ _ r c h

theorem cityPat3_isPrefix (r c : Str) (h : cityPat3 r = some c) : ∃ d, r = c ++ d := by
  unfold cityPat3 at h
  cases hd : (r.takeWhile (fun c => c ≠ '\n')).reverse.dropWhile (fun c => c ≠ '市') with
  | nil => rw [hd] at h; simp at h
  | cons x xs =>
    rw [hd] at h
    simp at h
    have hsuf : (x :: xs) <:+ ((r.takeWhile (fun c => c ≠ '\n')).reverse : List Char) := by
      rw [← hd]; exact List.dropWhile_suffix _
    obtain ⟨t, ht⟩ := hsuf
    refine ⟨t.reverse ++ r.dropWhile (fun c => c ≠ '\n'), ?_⟩
    conv_lhs => rw [← List.takeWhile_append_dropWhile (p := fun c => c ≠ '\n') (l := r)]
    rw [← List.append_assoc]
    congr 1
    have h3 : r.takeWhile (fun c => c ≠ '\n') = (t ++ x :: xs).reverse := by
      rw [ht]; simp
    rw [h3, ← h]
    simp

theorem singleSplit_isPrefix (isM : Char → Bool) (r c : Str)
    (h : (lazySplitAt isM r).map (·.1) = some c) : ∃ d, r = c ++ d := by
  cases hs : lazySplitAt isM r with
  | none => rw [hs] at h; simp at h
  | some pr =>
    rw [hs] at h
    simp at h
    exact ⟨pr.2, by rw [← h]; exact lazySplitAt_append _ r pr.1 pr.2 hs⟩

/-- Every successful city pattern returns a prefix of its input. -/
theorem cityMatch_isPrefix (r c : Str) (h : cityMatch r = some c) : ∃ d, r = c ++ d := by
  unfold cityMatch at h
  cases h1 : cityPat1 r with
  | some c1 =>
    rw [h1] at h; simp at h; rw [← h]; exact cityPat1_isPrefix r c1 h1
  | none =>
  rw [h1] at h; simp at h
  cases h2 : cityPat2 r with
  | some c2 =>
    rw [h2] at h; simp at h; rw [← h]; exact cityPat2_isPrefix r c2 h2
  | none =>
  rw [h2] at h; simp at h
  cases h3 : cityPat3 r with
  | some c3 =>
    rw [h3] at h; simp at h; rw [← h]; exact cityPat3_isPrefix r c3 h3
  | none =>
  rw [h3] at h; simp at h
  cases h4 : cityPat4 r with
  | some c4 =>
    rw [h4] at h; simp at h; rw [← h]; exact singleSplit_isPrefix _ r c4 h4
  | none =>
  rw [h4] at h; simp at h
  cases h5 : cityPat5 r with
  | some c5 =>
    rw [h5] at h; simp at h; rw [← h]; exact singleSplit_isPrefix _ r c5 h5
  | none =>
  rw [h5] at h; simp at h
  exact singleSplit_isPrefix _ r c h

/-- C7 — `parse_address` fails with a segmentation error exactly when no
prefecture marker is found (non-greedy split at the first of 都/道/府/県) or
no city pattern matches the remainder; the six city patterns are tried in a
fixed order with the first match winning; on success the address decomposes
as prefecture ++ city ++ district with the district taken verbatim after the
city segment. -/
theorem claim7_parse_address_segmentation (address : Str) :
    ((∃ e, parseAddress address = .error e) ↔
      (prefMatch address = none ∨
        ∃ pr, prefMatch address = some pr ∧ cityMatch pr.2 = none)) ∧
    (∀ e, parseAddress address = .error e → e = .segmentation) ∧
    (∀ p c d, parseAddress address = .ok (p, c, d) →
      address = p ++ c ++ d ∧ prefMatch address = some (p, c ++ d) ∧
        cityMatch (c ++ d) = some c) ∧
    (∀ r : Str, (cityPat1 r).isSome → cityMatch r = cityPat1 r) ∧
    (∀ r : Str, cityPat1 r = none → (cityPat2 r).isSome → cityMatch r = cityPat2 r) ∧
    (∀ r : Str, cityPat1 r = none → cityPat2 r = none → (cityPat3 r).isSome →
      cityMatch r = cityPat3 r) ∧
    (∀ r : Str, cityPat1 r = none → cityPat2 r = none → cityPat3 r = none →
      (cityPat4 r).isSome → cityMatch r = cityPat4 r) ∧
    (∀ r : Str, cityPat1 r = none → cityPat2 r = none → cityPat3 r = none →
      cityPat4 r = none → (cityPat5 r).isSome → cityMatch r = cityPat5 r) ∧
    (∀ r : Str, cityPat1 r = none → cityPat2 r = none → cityPat3 r = none →
      cityPat4 r = none → cityPat5 r = none → cityMatch r = cityPat6 r) := by
  refine ⟨?_, ?_, ?_, ?_, ?_, ?_, ?_, ?_, ?_⟩
  · constructor
    · rintro ⟨e, he⟩
      unfold parseAddress at he
      cases hp : prefMatch address with
      | none => exact Or.inl rfl
      | some pr =>
        obtain ⟨p0, r0⟩ := pr
        rw [hp] at he
        simp only [] at he
        cases hc : cityMatch r0 with
        | none => exact Or.inr ⟨(p0, r0), rfl, hc⟩
        | some c0 => rw [hc] at he; simp at he
    · rintro (hp | ⟨pr, hp, hc⟩)
      · exact ⟨.segmentation, by unfold parseAddress; rw [hp]⟩
      · obtain ⟨p0, r0⟩ := pr
        exact ⟨.segmentation, by unfold parseAddress; rw [hp]; simp only []; rw [hc]⟩
  · intro e he
    unfold parseAddress at he
    cases hp : prefMatch address with
    | none => rw [hp] at he; simp at he; rw [he]
    | some pr =>
      obtain ⟨p0, r0⟩ := pr
      rw [hp] at he
      simp only [] at he
      cases hc : cityMatch r0 with
      | none => rw [hc] at he; simp at he; rw [he]
      | some c0 => rw [hc] at he; simp at he
  · intro p c d h
    unfold parseAddress at h
    cases hp : prefMatch address with
    | none => rw [hp] at h; simp at h
    | some pr =>
      obtain ⟨p0, r0⟩ := pr
      rw [hp] at h
      simp only [] at h
      cases hc : cityMatch r0 with
      | none => rw [hc] at h; simp at h
      | some c0 =>
        rw [hc] at h
        simp only [Except.ok.injEq, Prod.mk.injEq] at h
        obtain ⟨hpp, hcc, hdd⟩ := h
        subst hpp
        subst hcc
        subst hdd
        obtain ⟨d', hd'⟩ := cityMatch_isPrefix r0 c0 hc
        have hdlen : r0.drop c0.length = d' := by rw [hd']; exact List.drop_left c0 d'
        rw [hdlen]
        have haddr := lazySplitAt_append _ address p0 r0 hp
        refine ⟨?_, ?_, ?_⟩
        · rw [haddr, hd', List.append_assoc]
        · rw [hd']
        · have h2 := hc
          rw [hd'] at h2
          exact h2
  · intro r h
    obtain ⟨c1, hc1⟩ := Option.isSome_iff_exists.mp h
    unfold cityMatch
    rw [hc1]
    rfl
  · intro r h1 h
    obtain ⟨c2, hc2⟩ := Option.isSome_iff_exists.mp h
    unfold cityMatch
    rw [h1, hc2]
    rfl
  · intro r h1 h2 h
    obtain ⟨c3, hc3⟩ := Option.isSome_iff_exists.mp h
    unfold cityMatch
    rw [h1, h2, hc3]
    rfl
  · intro r h1 h2 h3 h
    obtain ⟨c4, hc4⟩ := Option.isSome_iff_exists.mp h
    unfold cityMatch
    rw [h1, h2, h3, hc4]
    rfl
  · intro r h1 h2 h3 h4 h
    obtain ⟨c5, hc5⟩ := Option.isSome_iff_exists.mp h
    unfold cityMatch
    rw [h1, h2, h3, h4, hc5]
    rfl
  · intro r h1 h2 h3 h4 h5
    unfold cityMatch
    rw [h1, h2, h3, h4, h5]
    cases cityPat6 r <;> rfl

/-- Witness for C7: segmentation of a concrete address, and error on a
marker-free string. -/
theorem claim7_witness :
    parseAddress "東京都港区六本木5丁目".toList =
      .ok ("東京都".toList, "港区".toList, "六本木5丁目".toList) ∧
    "東京都港区六本木5丁目".toList =
      "東京都".toList ++ "港区".toList ++ "六本木5丁目".toList ∧
    (∃ e, parseAddress "ABC".toList = .error e) := by
  refine ⟨by decide, ?_, ?_⟩
  · exact ((claim7_parse_address_segmentation "東京都港区六本木5丁目".toList).2.2.1
      "東京都".toList "港区".toList "六本木5丁目".toList (by decide)).1
  · exact ((claim7_parse_address_segmentation "ABC".toList).1).mpr (Or.inl (by decide))

theorem alookup_upsert_self {V : Type} (m : List (Str × V)) (k : Str) (f : Option V → V) :
    alookup (upsert m k f) k = some (f (alookup m k)) := by
  induction m with
  | nil => simp [upsert, alookup]
  | cons e rest ih =>
    obtain ⟨k0, v⟩ := e
    unfold upsert
    by_cases h : k0 = k
    · subst h
      simp [alookup]
    · rw [if_neg (by simpa using h)]
      unfold alookup at ih ⊢
      rw [List.find?_cons_of_neg _ (by simpa using h), List.find?_cons_of_neg _ (by simpa using h)]
      exact ih

theorem alookup_upsert_ne {V : Type} (m : List (Str × V)) (k k' : Str) (f : Option V → V)
    (h : k' ≠ k) : alookup (upsert m k f) k' = alookup m k' := by
  induction m with
  | nil =>
    simp [upsert, alookup]
    exact fun hh => h hh.symm
  | cons e rest ih =>
    obtain ⟨k0, v⟩ := e
    unfold upsert
    by_cases h0 : k0 = k
    · subst h0
      rw [if_pos (by simp)]
      unfold alookup
      rw [List.find?_cons_of_neg _ (by simpa using (h ∘ Eq.symm)),
        List.find?_cons_of_neg _ (by simpa using (h ∘ Eq.symm))]
    · rw [if_neg (by simpa using h0)]
      by_cases h1 : k0 = k'
      · subst h1
        unfold alookup
        rw [List.find?_cons_of_pos _ (by simp), List.find?_cons_of_pos _ (by simp)]
      · unfold alookup at ih ⊢
        rw [List.find?_cons_of_neg _ (by simpa using h1),
          List.find?_cons_of_neg _ (by simpa using h1)]
        exact ih

theorem alookup_insertD (cm : CityMap) (d z d' : Str) :
    alookup (if amem cm d then cm else cm ++ [(d, z)]) d' =
      (alookup cm d').or (if d' = d then some z else none) := by
  by_cases hm : amem cm d
  · rw [if_pos hm]
    by_cases hd : d' = d
    · subst hd
      unfold amem at hm
      cases hv : alookup cm d' with
      | none => rw [hv] at hm; simp at hm
      | some w => simp
    · rw [if_neg hd]
      simp
  · rw [if_neg hm]
    unfold alookup
    rw [List.find?_append]
    cases hv : cm.find? (fun e => e.1 == d') with
    | some w => simp
    | none =>
      simp only [Option.none_or, Option.map_none, Option.none_or]
      by_cases hd : d' = d
      · subst hd
        rw [List.find?_cons_of_pos _ (by simp)]
        simp
      · rw [List.find?_cons_of_neg _ (by simpa using Ne.symm hd)]
        simp [hd]

theorem lookup3_insertTriple (idx : Index) (p c d z p' c' d' : Str) :
    lookup3 (insertTriple idx p c d z) p' c' d' =
      (lookup3 idx p' c' d').or
        (if p' = p ∧ c' = c ∧ d' = d then some z else none) := by
  unfold insertTriple lookup3
  by_cases hp : p' = p
  · subst hp
    rw [alookup_upsert_self]
    simp only [Option.some_bind]
    by_cases hc : c' = c
    · subst hc
      cases hpm : alookup idx p' with
      | none =>
        simp only [Option.getD_none, Option.none_bind, Option.none_or]
        rw [alookup_upsert_self]
        simp only [Option.some_bind]
        rw [alookup_insertD]
        simp [alookup]
      | some pm =>
        simp only [Option.getD_some, Option.some_bind]
        rw [alookup_upsert_self]
        simp only [Option.some_bind]
        rw [alookup_insertD]
        simp
        cases alookup pm c' <;> simp [alookup]
    · rw [alookup_upsert_ne _ _ _ _ hc]
      cases hpm : alookup idx p' with
      | none => simp [alookup, hc]
      | some pm => simp [hc]
  · rw [alookup_upsert_ne _ _ _ _ hp]
    simp [hp]

theorem lookup3_buildIndex_aux (rows : List (List Str)) :
    ∀ (idx : Index) (p c d : Str),
      lookup3 (rows.foldl (fun idx row =>
        match parseRow row with
        | none => idx
        | some (p0, c0, d0, z0) => insertTriple idx p0 c0 d0 z0) idx) p c d =
      (lookup3 idx p c d).or
        (((rows.filterMap parseRow).find?
            (fun e => e.1 == p && e.2.1 == c && e.2.2.1 == d)).map (fun e => e.2.2.2)) := by
  induction rows with
  | nil => intro idx p c d; simp
  | cons row rest ih =>
    intro idx p c d
    rw [List.foldl_cons, List.filterMap_cons]
    cases hr : parseRow row with
    | none => rw [ih]
    | some e =>
      obtain ⟨p0, c0, d0, z0⟩ := e
      simp only []
      rw [ih, lookup3_insertTriple]
      by_cases hmatch : p = p0 ∧ c = c0 ∧ d = d0
      · obtain ⟨h1, h2, h3⟩ := hmatch
        subst h1; subst h2; subst h3
        rw [List.find?_cons_of_pos _ (by simp)]
        simp [Option.or_assoc]
      · rw [if_neg hmatch, List.find?_cons_of_neg _ (by
          simp only [Bool.and_eq_true, beq_iff_eq, not_and]
          intro h1 h2
          exact hmatch ⟨h1.1.symm, h1.2.symm, h2.symm⟩)]
        simp

/-- C6 — Index collision invariant: the constructed index maps every
(prefecture, city, district) triple to the postal code of the first-seen
surviving registry row for that triple; later duplicates leave the entry
unchanged. -/
theorem claim6_first_seen_wins (rows : List (List Str)) (p c d : Str) :
    lookup3 (buildIndex rows) p c d =
      (((rows.filterMap parseRow).find?
          (fun e => e.1 == p && e.2.1 == c && e.2.2.1 == d)).map (fun e => e.2.2.2)) := by
  unfold buildIndex
  rw [lookup3_buildIndex_aux]
  simp [lookup3, alookup]

/-! ### Properties of `strip` and `dedupStrip` -/

theorem strip_head_not (l : List Char) :
    ∀ c, (strip l).head? = some c → isPySpace c = false := by
  intro c hc
  unfold strip at hc
  rw [List.head?_reverse] at hc
  rcases hsuf : ((l.dropWhile isPySpace).reverse.dropWhile isPySpace) with _ | ⟨x, xs⟩
  · rw [hsuf] at hc; simp at hc
  · rw [hsuf] at hc
    obtain ⟨s, hs⟩ := (List.dropWhile_suffix (l := (l.dropWhile isPySpace).reverse) isPySpace)
    rw [hsuf] at hs
    have hlast : ((l.dropWhile isPySpace).reverse : List Char).getLast? = some c := by
      rw [← hs, List.getLast?_append]
      rw [show ((x :: xs : List Char)).getLast? = some c from hc]
      rfl
    rw [List.getLast?_reverse] at hlast
    have := List.head?_dropWhile_not isPySpace l
    rw [hlast] at this
    exact this

theorem strip_getLast_not (l : List Char) :
    ∀ c, (strip l).getLast? = some c → isPySpace c = false := by
  intro c hc
  unfold strip at hc
  rw [List.getLast?_reverse] at hc
  have := List.head?_dropWhile_not isPySpace (l.dropWhile isPySpace).reverse
  rw [hc] at this
  exact this

theorem dropWhile_eq_self_of_head (p : Char → Bool) (l : List Char)
    (h : ∀ c, l.head? = some c → p c = false) : l.dropWhile p = l := by
  cases l with
  | nil => rfl
  | cons c rest =>
    rw [List.dropWhile_cons, if_neg]
    simp [h c rfl]

/-- `str.strip()` is idempotent. -/
theorem strip_idem (l : List Char) : strip (strip l) = strip l := by
  have h1 := strip_head_not l
  have h2 := strip_getLast_not l
  generalize hm : strip l = m at h1 h2 ⊢
  show strip m = m
  unfold strip
  rw [dropWhile_eq_self_of_head _ _ h1,
    dropWhile_eq_self_of_head _ _ (fun c hc => by
      rw [List.head?_reverse] at hc
      exact h2 c hc)]
  simp

theorem strip_eq_nil_iff (l : List Char) : strip l = [] ↔ isBlank l = true := by
  unfold strip isBlank
  constructor
  · intro h
    rw [List.reverse_eq_nil_iff, List.dropWhile_eq_nil_iff] at h
    rw [List.all_eq_true]
    intro x hx
    conv_lhs at hx => rw [← List.takeWhile_append_dropWhile (p := isPySpace) (l := l)]
    rw [List.mem_append] at hx
    cases hx with
    | inl hx => exact List.mem_takeWhile_imp hx
    | inr hx => exact h x (by simpa using hx)
  · intro h
    rw [List.all_eq_true] at h
    rw [List.reverse_eq_nil_iff, List.dropWhile_eq_nil_iff]
    intro x hx
    rw [List.mem_reverse] at hx
    exact h x ((List.dropWhile_sublist isPySpace).subset hx)

theorem mem_strip {c : Char} {l : List Char} (h : c ∈ strip l) : c ∈ l := by
  unfold strip at h
  rw [List.mem_reverse] at h
  have h2 := (List.dropWhile_sublist isPySpace).subset h
  rw [List.mem_reverse] at h2
  exact (List.dropWhile_sublist isPySpace).subset h2

/-- The de-duplication fold of `generate_district_variants`, invariants. -/
theorem dedupStrip_aux_nodup :
    ∀ (vs acc : List (List Char)), acc.Nodup →
      (vs.foldl (fun acc v =>
        let v' := strip v
        if !v'.isEmpty && !acc.contains v' then acc ++ [v'] else acc) acc).Nodup := by
  intro vs
  induction vs with
  | nil => intro acc h; exact h
  | cons v rest ih =>
    intro acc h
    rw [List.foldl_cons]
    apply ih
    simp only []
    split
    · rename_i hcond
      simp only [Bool.and_eq_true, Bool.not_eq_true'] at hcond
      rw [List.nodup_append]
      refine ⟨h, List.nodup_singleton _, ?_⟩
      intro x hx hx2
      simp at hx2
      rw [hx2] at hx
      have hc := hcond.2
      rw [List.contains_eq_any_beq] at hc
      rw [List.any_eq_false] at hc
      exact (hc _ hx) (by simp)
    · exact h

theorem dedupStrip_aux_head :
    ∀ (vs acc : List (List Char)), acc ≠ [] →
      (vs.foldl (fun acc v =>
        let v' := strip v
        if !v'.isEmpty && !acc.contains v' then acc ++ [v'] else acc) acc).head? = acc.head? := by
  intro vs
  induction vs with
  | nil => intro acc _; rfl
  | cons v rest ih =>
    intro acc h
    rw [List.foldl_cons]
    simp only []
    split
    · rw [ih _ (by simp [h]), List.head?_append]
      cases hacc : acc with
      | nil => exact absurd hacc h
      | cons a t => rfl
    · exact ih acc h

theorem dedupStrip_aux_mem :
    ∀ (vs acc : List (List Char)) (x : List Char),
      x ∈ vs.foldl (fun acc v =>
        let v' := strip v
        if !v'.isEmpty && !acc.contains v' then acc ++ [v'] else acc) acc →
      x ∈ acc ∨ ∃ u ∈ vs, x = strip u := by
  intro vs
  induction vs with
  | nil => intro acc x h; exact Or.inl h
  | cons v rest ih =>
    intro acc x h
    rw [List.foldl_cons] at h
    rcases ih _ x h with h2 | ⟨u, hu, hx⟩
    · simp only [] at h2
      split at h2
      · rw [List.mem_append] at h2
        rcases h2 with h3 | h3
        · exact Or.inl h3
        · simp at h3
          exact Or.inr ⟨v, by simp, h3⟩
      · exact Or.inl h2
    · exact Or.inr ⟨u, by simp [hu], hx⟩

theorem dedupStrip_aux_ne_nil :
    ∀ (vs acc : List (List Char)), (∀ x ∈ acc, x ≠ []) →
      ∀ x ∈ vs.foldl (fun acc v =>
        let v' := strip v
        if !v'.isEmpty && !acc.contains v' then acc ++ [v'] else acc) acc, x ≠ [] := by
  intro vs
  induction vs with
  | nil => intro acc h; exact h
  | cons v rest ih =>
    intro acc h
    rw [List.foldl_cons]
    apply ih
    simp only []
    split
    · rename_i hcond
      simp only [Bool.and_eq_true, Bool.not_eq_true'] at hcond
      intro x hx
      rw [List.mem_append] at hx
      rcases hx with hx | hx
      · exact h x hx
      · simp at hx
        rw [hx]
        intro hnil
        rw [hnil] at hcond
        simp [List.isEmpty] at hcond
    · exact h

/-- Every element of the de-duplicated variant list is non-empty and already
stripped. -/
theorem mem_dedupStrip (vs : List (List Char)) (x : List Char) (h : x ∈ dedupStrip vs) :
    x ≠ [] ∧ strip x = x ∧ ∃ u ∈ vs, x = strip u := by
  unfold dedupStrip at h
  have hne := dedupStrip_aux_ne_nil vs [] (by simp) x h
  rcases dedupStrip_aux_mem vs [] x h with h2 | ⟨u, hu, hx⟩
  · simp at h2
  · exact ⟨hne, by rw [hx, strip_idem], u, hu, hx⟩

/-- The variant list is a strip-dedup of a list headed by the raw district. -/
theorem gdv_cons (district : Str) :
    ∃ tail, generateDistrictVariants district = dedupStrip (district :: tail) := by
  unfold generateDistrictVariants
  simp only []
  split_ifs <;> exact ⟨_, rfl⟩

/-- C8 (counterexample) — The first element of the variant list is not
always the unmodified input district: for the non-empty input `" 六本木"`
(leading space) the first variant is the stripped string. -/
theorem claim8_counterexample :
    " 六本木".toList ≠ ([] : List Char) ∧
    (generateDistrictVariants " 六本木".toList).head? ≠ some " 六本木".toList := by
  decide

/-- C8 (amended) — `generate_district_variants` never produces duplicate
entries; for every input whose whitespace-strip is non-empty the first
element is the *stripped* input district (hence the unmodified input exactly
when it carries no surrounding whitespace); and the variants are the
de-duplicated concatenation, in priority order, of the unchanged district,
its digit-to-kanji conversion, the block-unit-stripped form with its kanji
conversion, the lot-number-stripped form, and the generic-area base prefix. -/
theorem claim8_variant_list_shape (district : Str) :
    (generateDistrictVariants district).Nodup ∧
    (isBlank district = false →
      (generateDistrictVariants district).head? = some (strip district)) ∧
    generateDistrictVariants district =
      dedupStrip
        ([district] ++
          (if convertArabicToKanji district ≠ district then [convertArabicToKanji district]
           else []) ++
          (if stripRunMarkerTail isAsciiDigit ['丁', '目'] district ≠ district &&
              !isBlank (stripRunMarkerTail isAsciiDigit ['丁', '目'] district) then
            [stripRunMarkerTail isAsciiDigit ['丁', '目'] district] ++
              (if convertArabicToKanji (stripRunMarkerTail isAsciiDigit ['丁', '目'] district) ≠
                  stripRunMarkerTail isAsciiDigit ['丁', '目'] district then
                [convertArabicToKanji (stripRunMarkerTail isAsciiDigit ['丁', '目'] district)]
              else [])
          else []) ++
          (if stripBanchiPattern district ≠ district && !isBlank (stripBanchiPattern district) then
            [stripBanchiPattern district]
          else []) ++
          baseVariantAux district ["町".toList, "新田町".toList, "大字".toList]) := by
  have hcons := gdv_cons district
  refine ⟨?_, ?_, ?_⟩
  · obtain ⟨tail, ht⟩ := hcons
    rw [ht]
    exact dedupStrip_aux_nodup _ [] List.nodup_nil
  · intro hb
    obtain ⟨tail, ht⟩ := hcons
    rw [ht]
    have hne : strip district ≠ [] := by
      intro hnil
      rw [strip_eq_nil_iff district] at hnil
      rw [hnil] at hb
      cases hb
    unfold dedupStrip
    rw [List.foldl_cons]
    simp only []
    rw [if_pos (by simp [List.isEmpty_iff, hne])]
    rw [List.nil_append, dedupStrip_aux_head tail [strip district] (by simp)]
    rfl
  · unfold generateDistrictVariants
    simp only []
    by_cases c1 : convertArabicToKanji district ≠ district <;>
      by_cases c2 : stripRunMarkerTail isAsciiDigit ['丁', '目'] district ≠ district <;>
      by_cases b2 : isBlank (stripRunMarkerTail isAsciiDigit ['丁', '目'] district) <;>
      by_cases c3 : convertArabicToKanji (stripRunMarkerTail isAsciiDigit ['丁', '目'] district) ≠
        stripRunMarkerTail isAsciiDigit ['丁', '目'] district <;>
      by_cases c4 : stripBanchiPattern district ≠ district <;>
      by_cases b4 : isBlank (stripBanchiPattern district) <;>
      simp [c1, c2, b2, c3, c4, b4]

/-- Witness for C8 (amended) at a concrete district. -/
theorem claim8_witness :
    (generateDistrictVariants "六本木5丁目".toList).head? = some (strip "六本木5丁目".toList) :=
  (claim8_variant_list_shape "六本木5丁目".toList).2.1 (by decide)

/-! ### Scanner behaviour on strings without their trigger characters -/

theorem pySpace_not_trigger (c : Char) (h : isPySpace c = true) :
    isAsciiDigit c = false ∧ isFullDigit c = false ∧ isKanjiNumChar c = false ∧
      c ≠ '町' ∧ c ≠ '新' ∧ c ≠ '大' := by
  have hmem : c ∈ [' ', '\t', '\n', '\r', '\x0b', '\x0c', '\x85', '\xa0',
      '\u2028', '\u2029', '　'] := by
    simp only [isPySpace, Bool.or_eq_true, decide_eq_true_eq] at h
    simp only [List.mem_cons, List.not_mem_nil, or_false]
    tauto
  fin_cases hmem <;> decide

theorem arabicMarkerPassF_id (marker : List Char) :
    ∀ (fuel : Nat) (l : List Char), (∀ c ∈ l, isAsciiDigit c = false) →
      arabicMarkerPassF marker fuel l = l := by
  intro fuel
  induction fuel with
  | zero => intro l _; cases l <;> rfl
  | succ fuel ih =>
    intro l h
    cases l with
    | nil => rfl
    | cons c rest =>
      simp only [arabicMarkerPassF]
      rw [if_neg (by simp [h c (by simp)])]
      rw [ih rest (fun c hc => h c (by simp [hc]))]

theorem stripRunMarkerTailF_id (cls : Char → Bool) (marker : List Char) :
    ∀ (fuel : Nat) (l : List Char), (∀ c ∈ l, cls c = false) →
      stripRunMarkerTailF cls marker fuel l = l := by
  intro fuel
  induction fuel with
  | zero => intro l _; cases l <;> rfl
  | succ fuel ih =>
    intro l h
    cases l with
    | nil => rfl
    | cons c rest =>
      simp only [stripRunMarkerTailF]
      rw [if_neg (by simp [h c (by simp)])]
      rw [ih rest (fun c hc => h c (by simp [hc]))]

theorem stripBanchiPatternF_id :
    ∀ (fuel : Nat) (l : List Char), (∀ c ∈ l, isAsciiDigit c = false) →
      stripBanchiPatternF fuel l = l := by
  intro fuel
  induction fuel with
  | zero => intro l _; cases l <;> rfl
  | succ fuel ih =>
    intro l h
    cases l with
    | nil => rfl
    | cons c rest =>
      simp only [stripBanchiPatternF]
      rw [if_neg (by simp [h c (by simp)])]
      rw [ih rest (fun c hc => h c (by simp [hc]))]

theorem findRunMarkerF_none (cls : Char → Bool) (marker : List Char) :
    ∀ (fuel : Nat) (l : List Char), (∀ c ∈ l, cls c = false) →
      findRunMarkerF cls marker fuel l = none := by
  intro fuel
  induction fuel with
  | zero => intro l _; cases l <;> rfl
  | succ fuel ih =>
    intro l h
    cases l with
    | nil => rfl
    | cons c rest =>
      simp only [findRunMarkerF]
      rw [if_neg (by simp [h c (by simp)])]
      exact ih rest (fun c hc => h c (by simp [hc]))

theorem matchBasePattern_none (m0 : Char) (ms : List Char) :
    ∀ (l : List Char), (∀ c ∈ l, c ≠ m0) → matchBasePattern (m0 :: ms) l = none := by
  intro l
  induction l with
  | nil => intro _; rfl
  | cons c rest ih =>
    intro h
    simp only [matchBasePattern]
    rw [if_neg (by
      rw [List.isPrefixOf_cons₂]
      intro hpre
      rw [Bool.and_eq_true, beq_iff_eq] at hpre
      exact h c (by simp) hpre.1.symm)]
    split
    · rfl
    · rw [ih (fun c hc => h c (by simp [hc]))]
      rfl

/-- On a blank district every variant-producing transformation is the
identity and the de-duplication drops the blank entry. -/
theorem gdv_blank (district : Str) (hb : isBlank district = true) :
    generateDistrictVariants district = [] := by
  have hch : ∀ c ∈ district, isPySpace c = true := by
    rwa [isBlank, List.all_eq_true] at hb
  have hnd : ∀ c ∈ district, isAsciiDigit c = false :=
    fun c hc => (pySpace_not_trigger c (hch c hc)).1
  have h1 : convertArabicToKanji district = district := by
    unfold convertArabicToKanji arabicMarkerPass
    rw [arabicMarkerPassF_id _ _ _ hnd, arabicMarkerPassF_id _ _ _ hnd]
  have h2 : stripRunMarkerTail isAsciiDigit ['丁', '目'] district = district := by
    unfold stripRunMarkerTail
    exact stripRunMarkerTailF_id _ _ _ _ hnd
  have h3 : stripBanchiPattern district = district := by
    unfold stripBanchiPattern
    exact stripBanchiPatternF_id _ _ hnd
  have h4 : baseVariantAux district ["町".toList, "新田町".toList, "大字".toList] = [] := by
    have hm1 : matchBasePattern "町".toList district = none :=
      matchBasePattern_none _ _ district
        (fun c hc => (pySpace_not_trigger c (hch c hc)).2.2.2.1)
    have hm2 : matchBasePattern "新田町".toList district = none :=
      matchBasePattern_none _ _ district
        (fun c hc => (pySpace_not_trigger c (hch c hc)).2.2.2.2.1)
    have hm3 : matchBasePattern "大字".toList district = none :=
      matchBasePattern_none _ _ district
        (fun c hc => (pySpace_not_trigger c (hch c hc)).2.2.2.2.2)
    unfold baseVariantAux
    rw [hm1]
    unfold baseVariantAux
    rw [hm2]
    unfold baseVariantAux
    rw [hm3]
    rfl
  have hstrip : strip district = [] := (strip_eq_nil_iff district).mpr hb
  unfold generateDistrictVariants
  simp only []
  rw [h1, h2, h3, h4]
  simp [dedupStrip, hstrip]

/-- C10 — For a blank district the variant list is empty and the
variant-driven parts of Phases 1 and 2 produce nothing (in Phase 1 even the
chome-range search fails, since no block number is extractable); moreover
every produced variant, for any input, is non-empty and carries no
surrounding whitespace. -/
theorem claim10_blank_district_variants (district : Str) :
    (isBlank district = true →
      generateDistrictVariants district = [] ∧
      (∀ cds : CityMap, exactMatchDistrict district cds = none ∧
        (generateDistrictVariants district).findSome? (fallbackVariant district cds) = none)) ∧
    (∀ v ∈ generateDistrictVariants district, v ≠ [] ∧ strip v = v) := by
  constructor
  · intro hb
    have hch : ∀ c ∈ district, isPySpace c = true := by
      rwa [isBlank, List.all_eq_true] at hb
    have hgdv := gdv_blank district hb
    refine ⟨hgdv, fun cds => ⟨?_, ?_⟩⟩
    · unfold exactMatchDistrict
      rw [hgdv]
      have hnum : extractChomeNumber district = none := by
        unfold extractChomeNumber findRunMarker
        rw [findRunMarkerF_none _ _ _ _
            (fun c hc => by
              have t := pySpace_not_trigger c (hch c hc)
              simp [isDecDigit, t.1, t.2.1]),
          findRunMarkerF_none _ _ _ _ (fun c hc => (pySpace_not_trigger c (hch c hc)).2.1),
          findRunMarkerF_none _ _ _ _ (fun c hc => (pySpace_not_trigger c (hch c hc)).2.2.1)]
      unfold chomeRangeSearch
      rw [hnum]
      rfl
    · rw [hgdv]
      rfl
  · intro v hv
    obtain ⟨tail, ht⟩ := gdv_cons district
    rw [ht] at hv
    have h := mem_dedupStrip _ v hv
    exact ⟨h.1, h.2.1⟩

/-- Witness for C10: the blank district `"  "` yields no variants and no
phase-1/2 hits, while a padded district yields trimmed, non-empty variants. -/
theorem claim10_witness :
    generateDistrictVariants "  ".toList = [] ∧
    exactMatchDistrict "  ".toList [("六本木".toList, "1060032".toList)] = none ∧
    ("六本木".toList ≠ [] ∧ strip "六本木".toList = "六本木".toList) :=
  ⟨((claim10_blank_district_variants "  ".toList).1 (by decide)).1,
   (((claim10_blank_district_variants "  ".toList).1 (by decide)).2
     [("六本木".toList, "1060032".toList)]).1,
   (claim10_blank_district_variants " 六本木".toList).2 "六本木".toList (by decide)⟩

theorem head?_filter {α : Type} (p : α → Bool) :
    ∀ l : List α, (l.filter p).head? = l.find? p := by
  intro l
  induction l with
  | nil => rfl
  | cons c rest ih =>
    rw [List.filter_cons, List.find?_cons]
    cases hp : p c
    · simpa using ih
    · simp

/-- C2 (counterexample) — The fallback prefix step does not follow the
claimed decision order: (a) with no specific-lot key among the prefix
matches, the first prefix match is returned even though an "other"-marker
key exists; (b) when a specific-lot number matches, the first specific-lot
entry's code is returned, not the code of the entry whose number matched. -/
theorem claim2_counterexample :
    (containsSub "（その他）".toList "甲（その他）".toList = true ∧
      "甲".toList.isPrefixOf "甲（その他）".toList = true ∧
      fallbackVariant "甲".toList
        [("甲乙".toList, "111".toList), ("甲（その他）".toList, "222".toList)] "甲".toList =
        some "111".toList) ∧
    (matchesSpecificAddress "乙2番地".toList [("乙（２番地）".toList, "B".toList)] = true ∧
      matchesSpecificAddress "乙2番地".toList [("乙（１番地）".toList, "A".toList)] = false ∧
      fallbackVariant "乙2番地".toList
        [("乙（１番地）".toList, "A".toList), ("乙（２番地）".toList, "B".toList)] "乙".toList =
        some "A".toList) := by
  decide

/-- C2 (amended) — Fallback prefix-match disambiguation as implemented:
for a variant with at least one stored prefix match, (a) if the input
district is non-empty and the raw input district textually contains the lot
number of *some* specific-lot prefix match, the *first* specific-lot prefix
match's code is returned; (b) if specific-lot prefix matches exist, the
input district is non-empty, no lot number matches, and an "other"-marker
prefix match exists, the first such entry's code is returned; (c) otherwise
the first prefix match in index insertion order is returned. -/
theorem claim2_fallback_prefix_order (district : Str) (cds : CityMap) (variant : Str)
    (hpref : cds.any (isPrefixEntry variant) = true) :
    (matchesSpecificAddress district (cds.filter (isSpecificEntry variant)) = true →
      district ≠ [] →
      fallbackVariant district cds variant =
        (cds.find? (isSpecificEntry variant)).map (·.2)) ∧
    (cds.any (isSpecificEntry variant) = true → district ≠ [] →
      matchesSpecificAddress district (cds.filter (isSpecificEntry variant)) = false →
      cds.any (isOthersEntry variant) = true →
      fallbackVariant district cds variant =
        (cds.find? (isOthersEntry variant)).map (·.2)) ∧
    ((cds.any (isSpecificEntry variant) = false ∨ district = [] ∨
        (matchesSpecificAddress district (cds.filter (isSpecificEntry variant)) = false ∧
          cds.any (isOthersEntry variant) = false)) →
      fallbackVariant district cds variant =
        (cds.find? (isPrefixEntry variant)).map (·.2)) := by
  have hspec : (cds.filter (fun e => variant.isPrefixOf e.1)).filter
      (fun e => containsSub ['（'] e.1 && containsSub ['番', '地', '）'] e.1) =
      cds.filter (isSpecificEntry variant) := by
    rw [List.filter_filter]
    exact List.filter_congr (fun a _ => by
      simp [isSpecificEntry, isPrefixEntry, Bool.and_comm])
  have hoth : (cds.filter (fun e => variant.isPrefixOf e.1)).filter
      (fun e =>
        !(containsSub ['（'] e.1 && containsSub ['番', '地', '）'] e.1) &&
          containsSub "（その他）".toList e.1) =
      cds.filter (isOthersEntry variant) := by
    rw [List.filter_filter]
    exact List.filter_congr (fun a _ => by
      simp [isOthersEntry, isPrefixEntry, Bool.and_comm])
  have hne : (cds.filter (fun e => variant.isPrefixOf e.1)).isEmpty = false := by
    rw [List.isEmpty_eq_false]
    rw [List.any_eq_true] at hpref
    obtain ⟨x, hx, hpx⟩ := hpref
    intro hnil
    rw [List.filter_eq_nil_iff] at hnil
    exact hnil x hx (by simpa [isPrefixEntry] using hpx)
  have hanyT : ∀ q : Str × Str → Bool, cds.any q = true → (cds.filter q).isEmpty = false := by
    intro q hb
    rw [List.any_eq_true] at hb
    obtain ⟨x, hx, hpx⟩ := hb
    rw [List.isEmpty_eq_false]
    intro hnil
    rw [List.filter_eq_nil_iff] at hnil
    exact hnil x hx hpx
  have hanyF : ∀ q : Str × Str → Bool, cds.any q = false → (cds.filter q).isEmpty = true := by
    intro q hb
    rw [List.any_eq_false] at hb
    simp only [List.isEmpty_iff, List.filter_eq_nil_iff]
    exact fun a ha => hb a ha
  refine ⟨?_, ?_, ?_⟩
  · intro hmatch hd
    unfold fallbackVariant
    simp only []
    rw [hne]
    simp only [Bool.not_false, if_true]
    rw [hspec, hoth]
    have hs : cds.any (isSpecificEntry variant) = true := by
      cases hb : cds.any (isSpecificEntry variant) with
      | true => rfl
      | false =>
        have h1 := hanyF _ hb
        rw [List.isEmpty_iff] at h1
        rw [h1] at hmatch
        simp [matchesSpecificAddress] at hmatch
    rw [hanyT _ hs, List.isEmpty_eq_false.mpr hd]
    simp only [Bool.not_false, Bool.and_self, if_true]
    rw [if_pos hmatch, head?_filter]
  · intro hs hd hmatch hoany
    unfold fallbackVariant
    simp only []
    rw [hne]
    simp only [Bool.not_false, if_true]
    rw [hspec, hoth]
    rw [hanyT _ hs, List.isEmpty_eq_false.mpr hd]
    simp only [Bool.not_false, Bool.and_self, if_true]
    rw [if_neg (by simp [hmatch]), hanyT _ hoany]
    simp only [Bool.not_false, if_true]
    rw [head?_filter]
  · intro hc
    unfold fallbackVariant
    simp only []
    rw [hne]
    simp only [Bool.not_false, if_true]
    rw [hspec, hoth]
    rcases hc with hc | hc | hc
    · rw [hanyF _ hc]
      rw [if_neg (by simp)]
      rw [head?_filter]
      rfl
    · subst hc
      rw [if_neg (by simp)]
      rw [head?_filter]
      rfl
    · obtain ⟨hm, ho⟩ := hc
      by_cases hsb : cds.any (isSpecificEntry variant) = true
      · rw [hanyT _ hsb]
        by_cases hd : district = []
        · subst hd
          rw [if_neg (by simp)]
          rw [head?_filter]
          rfl
        · rw [List.isEmpty_eq_false.mpr hd]
          simp only [Bool.not_false, Bool.and_self, if_true]
          rw [if_neg (by simp [hm]), hanyF _ ho]
          rw [if_neg (by simp)]
          rw [head?_filter]
          rfl
      · have hsb2 : cds.any (isSpecificEntry variant) = false := by
          cases h : cds.any (isSpecificEntry variant)
          · rfl
          · exact absurd h hsb
        rw [hanyF _ hsb2]
        rw [if_neg (by simp)]
        rw [head?_filter]
        rfl

/-- Witness for C2 (amended): the specific-lot scenario of the spec. -/
theorem claim2_witness :
    fallbackVariant "脇川新田町970番地".toList
      [("脇川新田町（９７０番地）".toList, "4450000".toList),
       ("脇川新田町（その他）".toList, "4450001".toList)] "脇川新田町".toList =
      (([("脇川新田町（９７０番地）".toList, "4450000".toList),
         ("脇川新田町（その他）".toList, "4450001".toList)].find?
           (isSpecificEntry "脇川新田町".toList)).map (·.2)) :=
  (claim2_fallback_prefix_order "脇川新田町970番地".toList
    [("脇川新田町（９７０番地）".toList, "4450000".toList),
     ("脇川新田町（その他）".toList, "4450001".toList)] "脇川新田町".toList
    (by decide)).1 (by decide) (by decide)

/-- C1 — Chome-range resolution: when every district variant misses the
index, a block number n is extractable from the district, and a stored key
k with code z carries the chome range (s, e) and is the only stored entry
satisfying the range test against this input, then z is returned by the
exact-match phase precisely when s ≤ n ≤ e and k's area name before any
parenthesis equals the input's base district name after kanji-numeral
canonicalization of both sides. -/
theorem claim1_chome_range_resolution (district : Str) (cds : CityMap) (n : Nat)
    (k z : Str) (s e : Nat)
    (hmiss : (generateDistrictVariants district).findSome? (alookup cds) = none)
    (hn : extractChomeNumber district = some n)
    (hmem : (k, z) ∈ cds)
    (hrange : extractChomeRange k = some (s, e))
    (huniq : ∀ p ∈ cds, chomeRangeCond (extractBaseDistrict district) n p = true → p = (k, z)) :
    exactMatchDistrict district cds = some z ↔
      ((s ≤ n ∧ n ≤ e) ∧
        convertKanjiNumbers (strip (stripParenTail k)) =
          convertKanjiNumbers (extractBaseDistrict district)) := by
  unfold exactMatchDistrict
  rw [hmiss]
  unfold chomeRangeSearch
  rw [hn]
  simp only []
  constructor
  · intro h
    cases hf : cds.find? (chomeRangeCond (extractBaseDistrict district) n) with
    | none => rw [hf] at h; simp at h
    | some p0 =>
      have hcond := List.find?_some hf
      have hp0 := huniq p0 (List.mem_of_find?_eq_some hf) hcond
      rw [hp0] at hcond
      unfold chomeRangeCond isChomeInRange at hcond
      rw [hrange] at hcond
      simp only [Bool.and_eq_true, decide_eq_true_eq, beq_iff_eq] at hcond
      exact ⟨hcond.1, hcond.2⟩
  · rintro ⟨⟨h1, h2⟩, h3⟩
    have hcond : chomeRangeCond (extractBaseDistrict district) n (k, z) = true := by
      unfold chomeRangeCond isChomeInRange
      rw [hrange]
      simp [h1, h2, h3]
    cases hf : cds.find? (chomeRangeCond (extractBaseDistrict district) n) with
    | none =>
      rw [List.find?_eq_none] at hf
      exact absurd hcond (hf (k, z) hmem)
    | some p0 =>
      have hp0 := huniq p0 (List.mem_of_find?_eq_some hf) (List.find?_some hf)
      rw [hp0]
      rfl

/-- Witness for C1: the 北四条西 scenario of the spec at block 20 with the
stored range 20〜30. -/
theorem claim1_witness :
    exactMatchDistrict "北四条西20丁目".toList
      [("北四条西（１〜１９丁目）".toList, "0600004".toList),
       ("北四条西（２０〜３０丁目）".toList, "0640824".toList)] = some "0640824".toList :=
  (claim1_chome_range_resolution "北四条西20丁目".toList
    [("北四条西（１〜１９丁目）".toList, "0600004".toList),
     ("北四条西（２０〜３０丁目）".toList, "0640824".toList)] 20
    "北四条西（２０〜３０丁目）".toList "0640824".toList 20 30
    (by decide) (by decide) (by decide) (by decide) (by decide)).mpr (by decide)

/-! ### Character-level stability of the normalization pipeline (for C4) -/

theorem map_self {α : Type} (f : α → α) :
    ∀ l : List α, (∀ c ∈ l, f c = c) → l.map f = l := by
  intro l
  induction l with
  | nil => intro _; rfl
  | cons c rest ih =>
    intro h
    rw [List.map_cons, h c (by simp), ih (fun c hc => h c (by simp [hc]))]

theorem fullToHalfPairs_range_closed :
    fullToHalfPairs.all (fun p => (fullToHalfPairs.find? (fun q => q.1 = p.2)).isNone) = true := by
  decide

theorem fullToHalfChar_idem (c : Char) :
    fullToHalfChar (fullToHalfChar c) = fullToHalfChar c := by
  unfold fullToHalfChar
  cases hf : fullToHalfPairs.find? (fun q => q.1 = c) with
  | none => rw [hf]
  | some p =>
    have hmem := List.mem_of_find?_eq_some hf
    have h2 := List.all_eq_true.mp fullToHalfPairs_range_closed p hmem
    rw [Option.isNone_iff_eq_none] at h2
    rw [h2]

theorem mem_replaceSubF (pat rep : List Char) :
    ∀ (fuel : Nat) (l : List Char) (c : Char),
      c ∈ replaceSubF pat rep fuel l → c ∈ l ∨ c ∈ rep := by
  intro fuel
  induction fuel with
  | zero =>
    intro l c h
    cases l with
    | nil => cases h
    | cons a rest => exact Or.inl h
  | succ fuel ih =>
    intro l c h
    cases l with
    | nil => cases h
    | cons a rest =>
      simp only [replaceSubF] at h
      split at h
      · rw [List.mem_append] at h
        rcases h with h | h
        · exact Or.inr h
        · rcases ih _ c h with h2 | h2
          · exact Or.inl (by simp [(List.drop_sublist _ _).subset h2])
          · exact Or.inr h2
      · rcases List.mem_cons.mp h with h2 | h2
        · exact Or.inl (by simp [h2])
        · rcases ih _ c h2 with h3 | h3
          · exact Or.inl (by simp [h3])
          · exact Or.inr h3

theorem not_mem_replaceSubF_single (c : Char) (rep : List Char) (hrep : c ∉ rep) :
    ∀ (fuel : Nat) (l : List Char), l.length ≤ fuel →
      c ∉ replaceSubF [c] rep fuel l := by
  intro fuel
  induction fuel with
  | zero =>
    intro l hl
    cases l with
    | nil => simp [replaceSubF]
    | cons a rest => simp at hl
  | succ fuel ih =>
    intro l hl
    cases l with
    | nil => simp [replaceSubF]
    | cons a rest =>
      simp only [replaceSubF]
      split
      · rename_i hcond
        rw [Bool.and_eq_true, List.isPrefixOf_cons₂] at hcond
        intro hmem
        rw [List.mem_append] at hmem
        rcases hmem with hm | hm
        · exact hrep hm
        · exact ih (rest.drop 0) (by simp at hl ⊢; omega) (by simpa using hm)
      · rename_i hcond
        intro hmem
        rcases List.mem_cons.mp hmem with h2 | h2
        · rw [Bool.and_eq_true] at hcond
          apply hcond
          constructor
          · rw [List.isPrefixOf_cons₂, Bool.and_eq_true, beq_iff_eq]
            exact ⟨h2, by simp [List.isPrefixOf]⟩
          · simp
        · exact ih rest (by simp at hl; omega) h2

theorem replaceSubF_id (pat rep : List Char) (pc : Char) (hpc : pc ∈ pat) :
    ∀ (fuel : Nat) (l : List Char), pc ∉ l → replaceSubF pat rep fuel l = l := by
  intro fuel
  induction fuel with
  | zero => intro l _; cases l <;> rfl
  | succ fuel ih =>
    intro l hl
    cases l with
    | nil => rfl
    | cons a rest =>
      simp only [replaceSubF]
      rw [if_neg (by
        rw [Bool.and_eq_true]
        rintro ⟨hpre, _⟩
        rw [List.isPrefixOf_iff_prefix] at hpre
        exact hl (hpre.subset hpc))]
      rw [ih rest (fun hm => hl (by simp [hm]))]

theorem mem_dotStarEndKeep {c : Char} {r : List Char} (h : c ∈ dotStarEndKeep r) :
    c = '\n' := by
  unfold dotStarEndKeep at h
  split at h <;> simp at h
  exact h

theorem mem_convertKanjiMarkerPassF (marker : List Char) :
    ∀ (fuel : Nat) (l : List Char) (c : Char),
      c ∈ convertKanjiMarkerPassF marker fuel l →
      c ∈ l ∨ c ∈ marker ∨ ∃ m, m ≤ 48 ∧ c ∈ natToDigits m := by
  intro fuel
  induction fuel with
  | zero =>
    intro l c h
    cases l with
    | nil => cases h
    | cons a rest => exact Or.inl h
  | succ fuel ih =>
    intro l c h
    cases l with
    | nil => cases h
    | cons a rest =>
      simp only [convertKanjiMarkerPassF] at h
      split at h
      · split at h
        · rw [List.mem_append, List.mem_append] at h
          rcases h with (h | h) | h
          · split at h
            · rename_i m hm
              exact Or.inr (Or.inr ⟨m, convertKanjiToNumberLe _ m hm, h⟩)
            · rcases List.mem_cons.mp h with h2 | h2
              · exact Or.inl (by simp [h2])
              · exact Or.inl (List.mem_cons_of_mem _ ((List.takeWhile_sublist _).subset h2))
          · exact Or.inr (Or.inl h)
          · rcases ih _ c h with h2 | h2
            · exact Or.inl (List.mem_cons_of_mem _
                (((List.drop_sublist _ _).trans (List.dropWhile_sublist _)).subset h2))
            · exact Or.inr h2
        · rw [List.mem_append] at h
          rcases h with h | h
          · rcases List.mem_cons.mp h with h2 | h2
            · exact Or.inl (by simp [h2])
            · exact Or.inl (List.mem_cons_of_mem _ ((List.takeWhile_sublist _).subset h2))
          · rcases ih _ c h with h2 | h2
            · exact Or.inl (List.mem_cons_of_mem _ ((List.dropWhile_sublist _).subset h2))
            · exact Or.inr h2
      · rcases List.mem_cons.mp h with h2 | h2
        · exact Or.inl (by simp [h2])
        · rcases ih _ c h2 with h3 | h3
          · exact Or.inl (List.mem_cons_of_mem _ h3)
          · exact Or.inr h3

theorem mem_convertKanjiNumbers {c : Char} {l : List Char}
    (h : c ∈ convertKanjiNumbers l) :
    c ∈ l ∨ c ∈ ['条', '丁', '目'] ∨ ∃ m, m ≤ 48 ∧ c ∈ natToDigits m := by
  unfold convertKanjiNumbers convertKanjiMarkerPass at h
  rcases mem_convertKanjiMarkerPassF _ _ _ c h with h2 | h2 | h2
  · rcases mem_convertKanjiMarkerPassF _ _ _ c h2 with h3 | h3 | h3
    · exact Or.inl h3
    · exact Or.inr (Or.inl (by simp at h3 ⊢; tauto))
    · exact Or.inr (Or.inr h3)
  · exact Or.inr (Or.inl (by simp at h2 ⊢; tauto))
  · exact Or.inr (Or.inr h2)

theorem mem_stripBanchiPatternF :
    ∀ (fuel : Nat) (l : List Char) (c : Char),
      c ∈ stripBanchiPatternF fuel l → c ∈ l ∨ c = '\n' := by
  intro fuel
  induction fuel with
  | zero =>
    intro l c h
    cases l with
    | nil => cases h
    | cons a rest => exact Or.inl h
  | succ fuel ih =>
    intro l c h
    cases l with
    | nil => cases h
    | cons a rest =>
      simp only [stripBanchiPatternF] at h
      split at h
      · split at h
        · rename_i h0 d r heq
          split at h
          · split at h
            · exact Or.inr (mem_dotStarEndKeep h)
            · rw [List.mem_append, List.mem_append] at h
              rcases h with (h | h) | h
              · rcases List.mem_cons.mp h with h2 | h2
                · exact Or.inl (by simp [h2])
                · exact Or.inl (List.mem_cons_of_mem _ ((List.takeWhile_sublist _).subset h2))
              · simp at h
                rw [h]
                have hm : h0 ∈ List.dropWhile isAsciiDigit rest := by rw [heq]; simp
                exact Or.inl (List.mem_cons_of_mem _
                  ((List.dropWhile_sublist isAsciiDigit).subset hm))
              · rcases ih _ c h with h2 | h2
                · have hm : c ∈ List.dropWhile isAsciiDigit rest := by
                    rw [heq]
                    simp at h2 ⊢
                    tauto
                  exact Or.inl (List.mem_cons_of_mem _
                    ((List.dropWhile_sublist isAsciiDigit).subset hm))
                · exact Or.inr h2
          · rw [List.mem_append] at h
            rcases h with h | h
            · rcases List.mem_cons.mp h with h2 | h2
              · exact Or.inl (by simp [h2])
              · exact Or.inl (List.mem_cons_of_mem _ ((List.takeWhile_sublist _).subset h2))
            · rcases ih _ c h with h2 | h2
              · have hm : c ∈ List.dropWhile isAsciiDigit rest := by rw [heq]; exact h2
                exact Or.inl (List.mem_cons_of_mem _
                  ((List.dropWhile_sublist isAsciiDigit).subset hm))
              · exact Or.inr h2
        · rename_i h0 heq
          rw [List.mem_append] at h
          rcases h with h | h
          · rcases List.mem_cons.mp h with h2 | h2
            · exact Or.inl (by simp [h2])
            · exact Or.inl (List.mem_cons_of_mem _ ((List.takeWhile_sublist _).subset h2))
          · rcases ih _ c h with h2 | h2
            · exact Or.inl (List.mem_cons_of_mem _
                ((List.dropWhile_sublist isAsciiDigit).subset h2))
            · exact Or.inr h2
      · rcases List.mem_cons.mp h with h2 | h2
        · exact Or.inl (by simp [h2])
        · rcases ih _ c h2 with h3 | h3
          · exact Or.inl (List.mem_cons_of_mem _ h3)
          · exact Or.inr h3

theorem mem_stripBanGoPatternF :
    ∀ (fuel : Nat) (l : List Char) (c : Char),
      c ∈ stripBanGoPatternF fuel l → c ∈ l ∨ c = '\n' := by
  intro fuel
  induction fuel with
  | zero =>
    intro l c h
    cases l with
    | nil => cases h
    | cons a rest => exact Or.inl h
  | succ fuel ih =>
    intro l c h
    cases l with
    | nil => cases h
    | cons a rest =>
      simp only [stripBanGoPatternF] at h
      split at h
      · split at h
        · rename_i b0 d r heq
          split at h
          · split at h
            · exact Or.inr (mem_dotStarEndKeep h)
            · rw [List.mem_append, List.mem_append] at h
              rcases h with (h | h) | h
              · rcases List.mem_cons.mp h with h2 | h2
                · exact Or.inl (by simp [h2])
                · exact Or.inl (List.mem_cons_of_mem _ ((List.takeWhile_sublist _).subset h2))
              · simp at h
                rw [h]
                have hm : b0 ∈ List.dropWhile isAsciiDigit rest := by rw [heq]; simp
                exact Or.inl (List.mem_cons_of_mem _
                  ((List.dropWhile_sublist isAsciiDigit).subset hm))
              · rcases ih _ c h with h2 | h2
                · have hm : c ∈ List.dropWhile isAsciiDigit rest := by
                    rw [heq]
                    simp at h2 ⊢
                    tauto
                  exact Or.inl (List.mem_cons_of_mem _
                    ((List.dropWhile_sublist isAsciiDigit).subset hm))
                · exact Or.inr h2
          · rw [List.mem_append] at h
            rcases h with h | h
            · rcases List.mem_cons.mp h with h2 | h2
              · exact Or.inl (by simp [h2])
              · exact Or.inl (List.mem_cons_of_mem _ ((List.takeWhile_sublist _).subset h2))
            · rcases ih _ c h with h2 | h2
              · have hm : c ∈ List.dropWhile isAsciiDigit rest := by rw [heq]; exact h2
                exact Or.inl (List.mem_cons_of_mem _
                  ((List.dropWhile_sublist isAsciiDigit).subset hm))
              · exact Or.inr h2
        · rename_i b0 heq
          rw [List.mem_append] at h
          rcases h with h | h
          · rcases List.mem_cons.mp h with h2 | h2
            · exact Or.inl (by simp [h2])
            · exact Or.inl (List.mem_cons_of_mem _ ((List.takeWhile_sublist _).subset h2))
          · rcases ih _ c h with h2 | h2
            · exact Or.inl (List.mem_cons_of_mem _
                ((List.dropWhile_sublist isAsciiDigit).subset h2))
            · exact Or.inr h2
      · rcases List.mem_cons.mp h with h2 | h2
        · exact Or.inl (by simp [h2])
        · rcases ih _ c h2 with h3 | h3
          · exact Or.inl (List.mem_cons_of_mem _ h3)
          · exact Or.inr h3

theorem mem_stripAfterChomePatternF :
    ∀ (fuel : Nat) (l : List Char) (c : Char),
      c ∈ stripAfterChomePatternF fuel l → c ∈ l ∨ c = '\n' := by
  intro fuel
  induction fuel with
  | zero =>
    intro l c h
    cases l with
    | nil => cases h
    | cons a rest => exact Or.inl h
  | succ fuel ih =>
    intro l c h
    cases l with
    | nil => cases h
    | cons a rest =>
      have hdw : (rest.dropWhile isAsciiDigit).Sublist rest := List.dropWhile_sublist _
      have hr2 : ((rest.dropWhile isAsciiDigit).drop 2).Sublist rest :=
        (List.drop_sublist _ _).trans hdw
      simp only [stripAfterChomePatternF] at h
      split at h
      · split at h
        · rename_i hpre
          rw [List.isPrefixOf_iff_prefix] at hpre
          split at h
          · split at h
            · rw [List.mem_append, List.mem_append] at h
              rcases h with (h | h) | h
              · rcases List.mem_cons.mp h with h2 | h2
                · exact Or.inl (by simp [h2])
                · exact Or.inl (List.mem_cons_of_mem _ ((List.takeWhile_sublist _).subset h2))
              · exact Or.inl (List.mem_cons_of_mem _ (hdw.subset (hpre.subset h)))
              · exact Or.inr (mem_dotStarEndKeep h)
            · rw [List.mem_append, List.mem_append] at h
              rcases h with (h | h) | h
              · rcases List.mem_cons.mp h with h2 | h2
                · exact Or.inl (by simp [h2])
                · exact Or.inl (List.mem_cons_of_mem _ ((List.takeWhile_sublist _).subset h2))
              · exact Or.inl (List.mem_cons_of_mem _ (hdw.subset (hpre.subset h)))
              · rcases ih _ c h with h2 | h2
                · exact Or.inl (List.mem_cons_of_mem _ (hr2.subset h2))
                · exact Or.inr h2
          · rw [List.mem_append, List.mem_append] at h
            rcases h with (h | h) | h
            · rcases List.mem_cons.mp h with h2 | h2
              · exact Or.inl (by simp [h2])
              · exact Or.inl (List.mem_cons_of_mem _ ((List.takeWhile_sublist _).subset h2))
            · exact Or.inl (List.mem_cons_of_mem _ (hdw.subset (hpre.subset h)))
            · rcases ih _ c h with h2 | h2
              · exact Or.inl (List.mem_cons_of_mem _ (hr2.subset h2))
              · exact Or.inr h2
        · rw [List.mem_append] at h
          rcases h with h | h
          · rcases List.mem_cons.mp h with h2 | h2
            · exact Or.inl (by simp [h2])
            · exact Or.inl (List.mem_cons_of_mem _ ((List.takeWhile_sublist _).subset h2))
          · rcases ih _ c h with h2 | h2
            · exact Or.inl (List.mem_cons_of_mem _ (hdw.subset h2))
            · exact Or.inr h2
      · rcases List.mem_cons.mp h with h2 | h2
        · exact Or.inl (by simp [h2])
        · rcases ih _ c h2 with h3 | h3
          · exact Or.inl (List.mem_cons_of_mem _ h3)
          · exact Or.inr h3

theorem mem_truncateKeywordPattern (kw : List Char) :
    ∀ (l : List Char) (c : Char),
      c ∈ truncateKeywordPattern kw l → c ∈ l ∨ c = '\n' := by
  intro l
  induction l with
  | nil => intro c h; cases h
  | cons a rest ih =>
    intro c h
    simp only [truncateKeywordPattern] at h
    split at h
    · exact Or.inr (mem_dotStarEndKeep h)
    · rcases List.mem_cons.mp h with h2 | h2
      · exact Or.inl (by simp [h2])
      · rcases ih c h2 with h3 | h3
        · exact Or.inl (List.mem_cons_of_mem _ h3)
        · exact Or.inr h3

theorem mem_keywordFold :
    ∀ (kws : List (List Char)) (l : List Char) (c : Char),
      c ∈ kws.foldl (fun acc kw => truncateKeywordPattern kw acc) l →
      c ∈ l ∨ c = '\n' := by
  intro kws
  induction kws with
  | nil => intro l c h; exact Or.inl h
  | cons kw kws ih =>
    intro l c h
    rcases ih _ c h with h2 | h2
    · rcases mem_truncateKeywordPattern kw l c h2 with h3 | h3
      · exact Or.inl h3
      · exact Or.inr h3
    · exact Or.inr h2

theorem mem_removeBuildingInfo {c : Char} {l : List Char}
    (h : c ∈ removeBuildingInfo l) : c ∈ l ∨ c = '\n' := by
  simp only [removeBuildingInfo] at h
  split at h
  · exact Or.inl h
  · rcases mem_keywordFold _ _ _ h with h2 | h2
    · rcases mem_stripAfterChomePatternF _ _ _ h2 with h3 | h3
      · rcases mem_stripBanGoPatternF _ _ _ h3 with h4 | h4
        · rcases mem_stripBanchiPatternF _ _ _ h4 with h5 | h5
          · exact Or.inl h5
          · exact Or.inr h5
        · exact Or.inr h4
      · exact Or.inr h3
    · exact Or.inr h2

/-- Every character of a normalized address is the half-width image of an
input character, one of the characters the pipeline can insert, or a digit of
a decimal numeral at most 48. -/
theorem mem_normalizeCore {c : Char} {x : List Char} (h : c ∈ normalizeCore x) :
    (∃ c0, c0 ∈ x ∧ c = fullToHalfChar c0) ∨ c ∈ ['ヶ', '\n', '条', '丁', '目'] ∨
      ∃ m, m ≤ 48 ∧ c ∈ natToDigits m := by
  simp only [normalizeCore] at h
  have h7 := mem_strip h
  unfold replaceSub at h7
  rcases mem_replaceSubF _ _ _ _ _ h7 with h6 | h6
  · rcases mem_replaceSubF _ _ _ _ _ h6 with h5 | h5
    · rcases mem_replaceSubF _ _ _ _ _ h5 with h4 | h4
      · rcases mem_removeBuildingInfo h4 with h3 | h3
        · rcases mem_convertKanjiNumbers h3 with h2 | h2 | h2
          · rw [List.mem_map] at h2
            obtain ⟨c0, hc0, hc⟩ := h2
            exact Or.inl ⟨c0, mem_strip hc0, hc.symm⟩
          · refine Or.inr (Or.inl ?_)
            simp only [List.mem_cons, List.not_mem_nil, or_false] at h2 ⊢
            rcases h2 with h2 | h2 | h2 <;> simp [h2]
          · exact Or.inr (Or.inr h2)
        · exact Or.inr (Or.inl (by simp [h3]))
      · cases h4
    · cases h5
  · refine Or.inr (Or.inl ?_)
    simp only [String.toList] at h6
    simp only [List.mem_cons, List.not_mem_nil, or_false] at h6 ⊢
    simp [h6]

/-- Digits of decimal numerals up to 48 are untouched by the full-width
translation table. -/
theorem fullToHalfChar_digits :
    ∀ m, m < 49 → ∀ c ∈ natToDigits m, fullToHalfChar c = c := by decide

/-- The 字 marker never survives normalization (the 字-removal pass deletes
it and no later pass reinserts it). -/
theorem aji_not_mem_normalizeCore (x : List Char) : '字' ∉ normalizeCore x := by
  intro h
  simp only [normalizeCore] at h
  have h7 := mem_strip h
  unfold replaceSub at h7
  rcases mem_replaceSubF _ _ _ _ _ h7 with h6 | h6
  · have hpat : ("字".toList : List Char) = ['字'] := rfl
    rw [hpat] at h6
    exact not_mem_replaceSubF_single '字' _ (by decide) _ _ (le_refl _) h6
  · exact absurd h6 (by decide)

/-- The ケ character never survives normalization (the final ケ→ヶ pass
removes it). -/
theorem ke_not_mem_normalizeCore (x : List Char) : 'ケ' ∉ normalizeCore x := by
  intro h
  simp only [normalizeCore] at h
  have h7 := mem_strip h
  unfold replaceSub at h7
  have hpat : ("ケ".toList : List Char) = ['ケ'] := rfl
  rw [hpat] at h7
  exact not_mem_replaceSubF_single 'ケ' _ (by decide) _ _ (le_refl _) h7

/-- Normalized output carries no surrounding whitespace. -/
theorem strip_normalizeCore (x : List Char) :
    strip (normalizeCore x) = normalizeCore x := by
  simp only [normalizeCore]
  rw [strip_idem]

/-- The full-width translation fixes every normalized output. -/
theorem map_fullToHalf_normalizeCore (x : List Char) :
    (normalizeCore x).map fullToHalfChar = normalizeCore x := by
  apply map_self
  intro c hc
  rcases mem_normalizeCore hc with ⟨c0, _, hc0⟩ | h | ⟨m, hm, hmem⟩
  · rw [hc0]
    exact fullToHalfChar_idem c0
  · fin_cases h <;> decide
  · exact fullToHalfChar_digits m (by omega) c hmem

/-- The normalization core is a fixpoint on its own output whenever the
kanji-numeral conversion and the lot/building-stripping pass leave that
output unchanged. -/
theorem normalizeCore_fix (x : List Char)
    (hk : convertKanjiNumbers (normalizeCore x) = normalizeCore x)
    (hr : removeBuildingInfo (normalizeCore x) = normalizeCore x) :
    normalizeCore (normalizeCore x) = normalizeCore x := by
  have hstrip := strip_normalizeCore x
  have hmap := map_fullToHalf_normalizeCore x
  have haji := aji_not_mem_normalizeCore x
  have hke := ke_not_mem_normalizeCore x
  generalize hy : normalizeCore x = y at hk hr hstrip hmap haji hke ⊢
  simp only [normalizeCore]
  rw [hstrip, hmap, hk, hr]
  unfold replaceSub
  rw [replaceSubF_id "大字".toList [] '字' (by decide) y.length y haji]
  rw [replaceSubF_id "字".toList [] '字' (by decide) y.length y haji]
  rw [replaceSubF_id "ケ".toList "ヶ".toList 'ケ' (by decide) y.length y hke]
  exact hstrip

/-- C4 (counterexample) — Idempotence of normalization fails in general: the
non-blank address "1-2" normalizes to the empty string (the lot-number pass
deletes it entirely), so the second application raises `InvalidInput` instead
of returning the first result. -/
theorem claim4_counterexample :
    isBlank "1-2".toList = false ∧
    normalizeE "1-2".toList = .ok [] ∧
    (normalizeE "1-2".toList).bind normalizeE = .error .invalidInput ∧
    (normalizeE "1-2".toList).bind normalizeE ≠ normalizeE "1-2".toList := by
  refine ⟨by decide, by decide, ?_, ?_⟩ <;> decide

theorem except_bind_ok {ε α β : Type} (a : α) (f : α → Except ε β) :
    (Except.ok a : Except ε α).bind f = f a := rfl

/-- C4 (amended) — Conditional idempotence of normalization: for every
non-blank address whose normalized form is non-blank and is left unchanged by
the kanji-numeral conversion and by the lot/building-stripping pass,
normalizing twice equals normalizing once. -/
theorem claim4_normalize_conditional_idempotence (x : List Char)
    (hb : isBlank x = false)
    (hnb : isBlank (normalizeCore x) = false)
    (hk : convertKanjiNumbers (normalizeCore x) = normalizeCore x)
    (hr : removeBuildingInfo (normalizeCore x) = normalizeCore x) :
    (normalizeE x).bind normalizeE = normalizeE x := by
  have h1 : normalizeE x = .ok (normalizeCore x) := by
    unfold normalizeE
    rw [if_neg (by simp [hb])]
  have h2 : normalizeE (normalizeCore x) = .ok (normalizeCore x) := by
    unfold normalizeE
    rw [if_neg (by simp [hnb]), normalizeCore_fix x hk hr]
  rw [h1, except_bind_ok]
  exact h2

/-- Witness for C4 (amended) at a concrete address with a lot number and a
building name. -/
theorem claim4_witness :
    isBlank "東京都港区六本木5丁目1-2-3ヒルズタワー".toList = false ∧
    isBlank (normalizeCore "東京都港区六本木5丁目1-2-3ヒルズタワー".toList) = false ∧
    (normalizeE "東京都港区六本木5丁目1-2-3ヒルズタワー".toList).bind normalizeE
      = normalizeE "東京都港区六本木5丁目1-2-3ヒルズタワー".toList :=
  ⟨by decide, by decide,
   claim4_normalize_conditional_idempotence _ (by decide) (by decide)
     (by decide) (by decide)⟩

end A2Z
